import Mathlib

/-!
Verification development for the RefNet citation-graph engine.

The Python source is shallowly embedded: Python `str` becomes `List Char`
(so that stripping / prefix tests are provable by list induction), Python
dicts and sets become association lists and duplicate-free insertion lists,
the networkx `DiGraph` becomes an explicit node/edge list structure with
networkx's add/remove semantics, and the remote OpenAlex HTTP calls are
abstracted into a deterministic adapter record of oracle functions (the
HTTP layer itself is not part of the verified core).
-/

namespace RefNet

/-- Python `str` is modelled as a list of characters. -/
abbrev Str := List Char

/-- Coerce a Lean string literal to the `Str` model (used for concrete inputs). -/
def str (s : String) : Str := s.toList

/-- Python's `str.startswith`: boolean prefix test on character lists. -/
def startsWith (pre s : Str) : Bool :=
  match pre, s with
  | [], _ => true
  | _ :: _, [] => false
  | a :: pre', b :: s' => if a = b then startsWith pre' s' else false

/-- Python's `str.strip()`: drop whitespace from both ends. -/
def pyStrip (s : Str) : Str :=
  List.rdropWhile (fun c => c.isWhitespace) (s.dropWhile (fun c => c.isWhitespace))

/-- The DOI prefix literal `"10."` from `validators.py`. -/
def doiPre : Str := str "10."

/-- The OpenAlex URL prefix literal `"https://openalex.org/"`. -/
def openalexPre : Str := str "https://openalex.org/"

/-- The DOI URL prefix literal `"https://doi.org/"`. -/
def doiUrlPre : Str := str "https://doi.org/"

/-- `refnet.utils.validators.validate_paper_id`: validate and normalize a
paper id, returning `(is_valid, normalized_id)`.  Non-string / falsy input
is modelled by the empty-after-strip test, exactly as the Python code
rejects `""` and whitespace-only strings. -/
def validate_paper_id (paper_id : Str) : Bool × Str :=
  let s := pyStrip paper_id
  if s = [] then (false, [])
  else if startsWith doiPre s then (true, doiUrlPre ++ s)
  else if ¬ (startsWith openalexPre s) then (true, openalexPre ++ s)
  else (true, s)

/-- An identifier is canonical when the validator accepts it and returns it
unchanged (it is a fixed point of normalization). -/
def IsCanonical (k : Str) : Prop := validate_paper_id k = (true, k)

instance (k : Str) : Decidable (IsCanonical k) := by
  unfold IsCanonical; infer_instance

/-- The canonical key the validator assigns to an identifier. -/
def canonicalKey (k : Str) : Str := (validate_paper_id k).2

/-- The fields of `refnet.models.paper.Paper` that the graph engine reads.
(The remaining record fields—abstract, venue, topics, …—are carried opaquely
by the real code and never branch the engine logic.) -/
structure Paper where
  id : Str
  title : Str
  authors : List Str
  year : Option Int
  citations : Nat
deriving DecidableEq

/-- Association-list lookup (Python `dict.get` / `in`). -/
def lookupC (c : List (Str × Paper)) (k : Str) : Option Paper :=
  match c with
  | [] => none
  | (k', v) :: rest => if k' = k then some v else lookupC rest k

/-- Association-list update (Python `dict[k] = v`). -/
def setC (c : List (Str × Paper)) (k : Str) (v : Paper) : List (Str × Paper) :=
  match c with
  | [] => [(k, v)]
  | (k', v') :: rest => if k' = k then (k, v) :: rest else (k', v') :: setC rest k v

/-- Insert into a membership set (Python `set.add`): append if absent. -/
def addSet (s : List Str) (k : Str) : List Str :=
  if k ∈ s then s else s ++ [k]

/-- networkx `DiGraph`: nodes in insertion order carrying optional paper
attributes (a node created implicitly by `add_edge` has no attributes),
plus directed edges in insertion order. -/
structure DiGraph where
  nodes : List (Str × Option Paper)
  edges : List (Str × Str)
deriving DecidableEq

namespace DiGraph

/-- The empty graph (fresh `nx.DiGraph()` / `graph.clear()`). -/
def empty : DiGraph := ⟨[], []⟩

/-- `n in G`. -/
def hasNode (g : DiGraph) (k : Str) : Bool := g.nodes.any (fun e => e.1 = k)

/-- `G.add_node(k, **attrs)`: updates attributes in place if the node exists,
otherwise appends a new node. -/
def addNodeData (g : DiGraph) (k : Str) (p : Paper) : DiGraph :=
  if g.hasNode k then
    { g with nodes := g.nodes.map (fun e => if e.1 = k then (k, some p) else e) }
  else
    { g with nodes := g.nodes ++ [(k, some p)] }

/-- Implicit node creation performed by `G.add_edge` for missing endpoints. -/
def ensureNode (g : DiGraph) (k : Str) : DiGraph :=
  if g.hasNode k then g else { g with nodes := g.nodes ++ [(k, none)] }

/-- `(a, b) in G.edges`. -/
def hasEdge (g : DiGraph) (a b : Str) : Bool := g.edges.any (fun e => e = (a, b))

/-- `G.add_edge(a, b)`: creates missing endpoints, then records the edge
unless it is already present (networkx edge sets are duplicate-free). -/
def addEdge (g : DiGraph) (a b : Str) : DiGraph :=
  if ((g.ensureNode a).ensureNode b).hasEdge a b then (g.ensureNode a).ensureNode b
  else { (g.ensureNode a).ensureNode b with
         edges := ((g.ensureNode a).ensureNode b).edges ++ [(a, b)] }

/-- `G.add_edges_from(es)`. -/
def addEdgesFrom (g : DiGraph) (es : List (Str × Str)) : DiGraph :=
  es.foldl (fun g e => g.addEdge e.1 e.2) g

/-- `G.remove_edge(a, b)`. -/
def removeEdge (g : DiGraph) (a b : Str) : DiGraph :=
  { g with edges := g.edges.filter (fun e => ¬ e = (a, b)) }

/-- The loop `for edge in list(G.edges(n)): G.remove_edge(*edge)` in
`remove_paper_from_graph`: `G.edges(n)` yields only the out-edges of `n`. -/
def removeOutEdges (g : DiGraph) (k : Str) : DiGraph :=
  { g with edges := g.edges.filter (fun e => ¬ e.1 = k) }

/-- `G.remove_node(n)`: removes the node and every incident edge. -/
def removeNode (g : DiGraph) (k : Str) : DiGraph :=
  { nodes := g.nodes.filter (fun e => ¬ e.1 = k),
    edges := g.edges.filter (fun e => ¬ e.1 = k ∧ ¬ e.2 = k) }

/-- `G.in_degree(n)`. -/
def inDegree (g : DiGraph) (k : Str) : Nat :=
  (g.edges.filter (fun e => e.2 = k)).length

/-- `G.out_degree(n)`. -/
def outDegree (g : DiGraph) (k : Str) : Nat :=
  (g.edges.filter (fun e => e.1 = k)).length

/-- `G.degree(n)` for a networkx `DiGraph`: in-degree plus out-degree. -/
def degree (g : DiGraph) (k : Str) : Nat := g.inDegree k + g.outDegree k

/-- The node-key list in insertion order. -/
def keys (g : DiGraph) : List Str := g.nodes.map Prod.fst

end DiGraph

/-- The mutable state of `GraphService`: the networkx graph, the
`added_papers` dedup set, and the service-level `paper_cache`. -/
structure EngineState where
  graph : DiGraph
  added_papers : List Str
  paper_cache : List (Str × Paper)
deriving DecidableEq

/-- The fresh / reset engine state. -/
def initState : EngineState := ⟨DiGraph.empty, [], []⟩

/-- The OpenAlex record source, abstracted into deterministic oracles.
`get_paper_by_id` stands for the rate-limited, retried HTTP lookup plus
`PaperFormatter.format_paper_data` (returning `none` for not-found or
malformed records); the remaining fields stand for the citation /
reference / batch endpoints consumed by `GraphService`. -/
structure Adapter where
  get_paper_by_id : Str → Option Paper
  citations_of : Str → List Str
  references_of : Str → List Str
  get_top_cited_papers : Str → Nat → List Paper
  get_top_reference_papers : Str → Nat → List Paper
  get_papers_batch : List Str → List Paper

/-- The paper-resolution block of `GraphService.add_paper_to_graph`: use the
supplied paper data, else the service cache, else fetch via the adapter and
cache the fetched paper under both the normalized id and the record's own
id.  Returns the (possibly cache-extended) state together with the paper, or
`none` when the adapter cannot resolve the id. -/
def resolvePaper (A : Adapter) (s : EngineState) (paper_id nid : Str)
    (paper_data : Option Paper) : Option (EngineState × Paper) :=
  match paper_data with
  | some p => some (s, p)
  | none =>
    match lookupC s.paper_cache nid with
    | some p => some (s, p)
    | none =>
      match A.get_paper_by_id paper_id with
      | none => none
      | some p => some ({ s with paper_cache := setC (setC s.paper_cache nid p) p.id p }, p)

/-- `GraphService.add_paper_to_graph`: validate / dedup-check the identifier,
resolve the paper via `resolvePaper`, apply the strict author filter for
non-root papers, then insert the node and record the normalized id (and,
when different, the record id) in `added_papers`. -/
def add_paper_to_graph (A : Adapter) (s : EngineState) (paper_id : Str)
    (is_root : Bool) (paper_data : Option Paper) : EngineState × Bool :=
  if ¬ (validate_paper_id paper_id).1 ∨ (validate_paper_id paper_id).2 ∈ s.added_papers then
    (s, false)
  else
    match resolvePaper A s paper_id (validate_paper_id paper_id).2 paper_data with
    | none => (s, false)
    | some (s1, paper) =>
      if ¬ is_root ∧ paper.authors = [] then (s1, false)
      else
        ({ s1 with
            graph := s1.graph.addNodeData (validate_paper_id paper_id).2 paper,
            added_papers :=
              if ¬ paper.id = (validate_paper_id paper_id).2 then
                addSet (addSet s1.added_papers (validate_paper_id paper_id).2) paper.id
              else addSet s1.added_papers (validate_paper_id paper_id).2 }, true)

/-- `GraphService.is_paper_in_graph`: membership test against `added_papers`
under both the normalized and the raw identifier. -/
def is_paper_in_graph (s : EngineState) (pid : Str) : Bool :=
  let v := (validate_paper_id pid).1
  let nid := (validate_paper_id pid).2
  if ¬ v then false
  else if nid ∈ s.added_papers ∨ pid ∈ s.added_papers then true else false

/-- `GraphService.remove_paper_from_graph`: validate, require node presence,
remove the out-edges listed by `graph.edges(n)`, remove the node (networkx
drops the remaining incident edges), and discard the normalized id from
`added_papers`. -/
def remove_paper_from_graph (s : EngineState) (pid : Str) : EngineState × Bool :=
  let v := (validate_paper_id pid).1
  let nid := (validate_paper_id pid).2
  if ¬ v then (s, false)
  else if ¬ s.graph.hasNode nid then (s, false)
  else
    let g := (s.graph.removeOutEdges nid).removeNode nid
    ({ s with graph := g, added_papers := s.added_papers.filter (fun x => ¬ x = nid) }, true)

/-- Modelled from the spec: `OpenAlexService.get_citations_and_references_batch`
is called by `GraphService.build_graph_from_root` (and `build_graph_from_roots`)
but its definition is absent from the source tree; only the call sites exist.
Per the spec's Record Source Adapter contract (§4.2), it returns, for every
requested identifier, the source-ordered citing-paper ids and reference ids,
capped at the requested page sizes, and an empty pair for ids it was not
asked about. -/
def get_citations_and_references_batch (A : Adapter) (ids : List Str)
    (cited_per_page ref_per_page : Nat) : Str → List Str × List Str :=
  fun pid =>
    if pid ∈ ids then
      ((A.citations_of pid).take cited_per_page, (A.references_of pid).take ref_per_page)
    else ([], [])

/-- Deduplicate keeping first occurrences (a deterministic rendering of the
Python `set` accumulation; only the cache-priming step consumes the order). -/
def dedupAux (seen : List Str) : List Str → List Str
  | [] => []
  | x :: xs => if x ∈ seen then dedupAux seen xs else x :: dedupAux (seen ++ [x]) xs

/-- Entry point for `dedupAux`. -/
def dedupKeepFirst (l : List Str) : List Str := dedupAux [] l

/-- The cache-priming loop of `build_graph_from_root`: each batch-fetched
paper is cached under its normalized id and its record id. -/
def cacheBatchPapers (s : EngineState) (papers : List Paper) : EngineState :=
  papers.foldl (fun s p =>
    if (validate_paper_id p.id).1 then
      { s with paper_cache := setC (setC s.paper_cache (validate_paper_id p.id).2 p) p.id p }
    else s) s

/-- One citing/reference candidate inside a `build_graph_from_root` round:
skip if the raw id is already in `added_papers`, validate, attempt admission,
and on success record the pending edge `(normalized current, normalized
candidate)` and extend the next frontier. -/
def processCandidate (A : Adapter) (nc : Str)
    (acc : EngineState × List (Str × Str) × List Str) (cand : Str) :
    EngineState × List (Str × Str) × List Str :=
  if cand ∈ acc.1.added_papers then acc
  else if ¬ (validate_paper_id cand).1 then acc
  else if (add_paper_to_graph A acc.1 cand false none).2 then
    ((add_paper_to_graph A acc.1 cand false none).1,
     acc.2.1 ++ [(nc, (validate_paper_id cand).2)],
     acc.2.2 ++ [(validate_paper_id cand).2])
  else ((add_paper_to_graph A acc.1 cand false none).1, acc.2.1, acc.2.2)

/-- One frontier paper inside a `build_graph_from_root` round: re-validate the
frontier id, then process its top citing candidates followed by its top
reference candidates (both edge directions in this code path are
`(normalized current, normalized candidate)`, exactly as in the source). -/
def processFrontierPaper (A : Adapter) (cl rl : Nat) (cits refs : Str → List Str)
    (acc : EngineState × List (Str × Str) × List Str) (pid : Str) :
    EngineState × List (Str × Str) × List Str :=
  if ¬ (validate_paper_id pid).1 then acc
  else
    ((refs pid).take rl).foldl (processCandidate A (validate_paper_id pid).2)
      (((cits pid).take cl).foldl (processCandidate A (validate_paper_id pid).2) acc)

/-- The per-round citation oracle: the `citations_map` entries formed from
the batch call with page size `min 200 (cl·3)`. -/
def roundCits (A : Adapter) (current : List Str) (cl rl : Nat) : Str → List Str :=
  fun pid =>
    (get_citations_and_references_batch A current (min 200 (cl * 3))
      (min 200 (rl * 3)) pid).1

/-- The per-round reference oracle (`references_map`). -/
def roundRefs (A : Adapter) (current : List Str) (cl rl : Nat) : Str → List Str :=
  fun pid =>
    (get_citations_and_references_batch A current (min 200 (cl * 3))
      (min 200 (rl * 3)) pid).2

/-- `all_new_paper_ids`: the deduplicated sliced candidate ids of the round,
minus the already-added set. -/
def roundNewIds (A : Adapter) (cl rl : Nat) (s : EngineState)
    (current : List Str) : List Str :=
  (dedupKeepFirst (current.foldl
    (fun acc pid => acc ++ (roundCits A current cl rl pid).take cl ++
      (roundRefs A current cl rl pid).take rl) [])).filter
    (fun x => ¬ x ∈ s.added_papers)

/-- The cache-priming step: batch-fetch the new ids (when any) and cache
them. -/
def roundPrimed (A : Adapter) (cl rl : Nat) (s : EngineState)
    (current : List Str) : EngineState :=
  if roundNewIds A cl rl s current = [] then s
  else cacheBatchPapers s (A.get_papers_batch (roundNewIds A cl rl s current))

/-- The frontier-processing fold of one round, producing the state, the
pending `edges_to_add`, and the `next_level`. -/
def roundFold (A : Adapter) (cl rl : Nat) (s : EngineState) (current : List Str) :
    EngineState × List (Str × Str) × List Str :=
  current.foldl
    (processFrontierPaper A cl rl (roundCits A current cl rl)
      (roundRefs A current cl rl))
    (roundPrimed A cl rl s current, [], [])

/-- One BFS round of `build_graph_from_root`: batch-fetch citation/reference
ids for the frontier, prime the cache for the new ids, process every frontier
paper, then add all pending edges at once.  Returns the new state and the
next frontier. -/
def buildRound (A : Adapter) (cl rl : Nat) (s : EngineState) (current : List Str) :
    EngineState × List Str :=
  ({ (roundFold A cl rl s current).1 with
      graph := (roundFold A cl rl s current).1.graph.addEdgesFrom
        (roundFold A cl rl s current).2.1 },
   (roundFold A cl rl s current).2.2)

/-- The `for iteration in range(iterations)` loop of `build_graph_from_root`,
with its early exit when the frontier empties. -/
def buildLoop (A : Adapter) (cl rl : Nat) (s : EngineState) (current : List Str) :
    Nat → EngineState
  | 0 => s
  | n + 1 =>
    if (buildRound A cl rl s current).2 = [] then (buildRound A cl rl s current).1
    else buildLoop A cl rl (buildRound A cl rl s current).1
      (buildRound A cl rl s current).2 n

/-- The snapshot produced by `GraphService.get_graph_data`, restricted to the
discretely-valued content (node ids in insertion order, edges, and the counts;
the force-directed layout coordinates are floating-point output of
`nx.spring_layout` and carry no engine logic). -/
structure GraphData where
  nodes : List Str
  edges : List (Str × Str)
  total_nodes : Nat
  total_edges : Nat
deriving DecidableEq

/-- `GraphService.get_graph_data` (discrete content). -/
def get_graph_data (s : EngineState) : GraphData :=
  { nodes := s.graph.keys
    edges := s.graph.edges
    total_nodes := s.graph.keys.length
    total_edges := s.graph.edges.length }

/-- Result of a graph-building entry point: an error message or a snapshot. -/
inductive BuildResult where
  | error (msg : Str)
  | ok (data : GraphData)
deriving DecidableEq

/-- `GraphService.build_graph_from_root`: reset all engine state (the
incoming state `s` is discarded, as the method clears the graph, the added
set and the cache), admit the root (strict filter bypassed), then run the
BFS loop from the normalized root. -/
def build_graph_from_root (A : Adapter) (s : EngineState) (root : Str)
    (iterations cl rl : Nat) : EngineState × BuildResult :=
  if ¬ (add_paper_to_graph A initState root true none).2 then
    ((add_paper_to_graph A initState root true none).1,
     .error (str "Could not fetch root paper"))
  else if ¬ (validate_paper_id root).1 then
    ((add_paper_to_graph A initState root true none).1,
     .error (str "Invalid paper ID"))
  else
    (buildLoop A cl rl (add_paper_to_graph A initState root true none).1
      [(validate_paper_id root).2] iterations,
     .ok (get_graph_data (buildLoop A cl rl
       (add_paper_to_graph A initState root true none).1
       [(validate_paper_id root).2] iterations)))

/-- `GraphService.build_graph_from_multiple_roots`: run
`build_graph_from_root` for each root in turn (each such call resets the
engine state), aborting on the first error; finally snapshot whatever state
remains. -/
def build_graph_from_multiple_roots (A : Adapter) (s : EngineState)
    (roots : List Str) (iterations cl rl : Nat) : EngineState × BuildResult :=
  match roots with
  | [] => (s, .ok (get_graph_data s))
  | r :: rs =>
    let res := build_graph_from_root A s r iterations cl rl
    match res.2 with
    | .error m => (res.1, .error m)
    | .ok _ => build_graph_from_multiple_roots A res.1 rs iterations cl rl

/-- One citing/reference paper inside an `expand_from_node` round: attempt
admission by the record's own id; on success add the edge immediately
(citing paper → node for citations, node → reference for references) and
extend the next frontier with the record id. -/
def expandCandidate (A : Adapter) (node_id : Str) (isCiting : Bool)
    (acc : EngineState × List Str) (p : Paper) : EngineState × List Str :=
  if (add_paper_to_graph A acc.1 p.id false none).2 then
    ({ (add_paper_to_graph A acc.1 p.id false none).1 with
        graph :=
          if isCiting then
            (add_paper_to_graph A acc.1 p.id false none).1.graph.addEdge p.id node_id
          else
            (add_paper_to_graph A acc.1 p.id false none).1.graph.addEdge node_id p.id },
     acc.2 ++ [p.id])
  else ((add_paper_to_graph A acc.1 p.id false none).1, acc.2)

/-- One frontier node inside an `expand_from_node` round: its top citing
papers first, then its top reference papers. -/
def expandFrontierNode (A : Adapter) (cl rl : Nat)
    (acc : EngineState × List Str) (node_id : Str) : EngineState × List Str :=
  (A.get_top_reference_papers node_id rl).foldl (expandCandidate A node_id false)
    ((A.get_top_cited_papers node_id cl).foldl (expandCandidate A node_id true) acc)

/-- The iteration loop of `expand_from_node`, with its early exit when the
frontier empties. -/
def expandLoop (A : Adapter) (cl rl : Nat) (s : EngineState) (current : List Str) :
    Nat → EngineState
  | 0 => s
  | n + 1 =>
    if (current.foldl (expandFrontierNode A cl rl) (s, [])).2 = [] then
      (current.foldl (expandFrontierNode A cl rl) (s, [])).1
    else
      expandLoop A cl rl (current.foldl (expandFrontierNode A cl rl) (s, [])).1
        (current.foldl (expandFrontierNode A cl rl) (s, [])).2 n

/-- `GraphService.expand_from_node`: validate, require the node to exist,
then run the incremental BFS without resetting the graph.  The boolean is
`true` for the success dictionary, `false` for either error dictionary. -/
def expand_from_node (A : Adapter) (s : EngineState) (pid : Str)
    (iterations cl rl : Nat) : EngineState × Bool :=
  if ¬ (validate_paper_id pid).1 then (s, false)
  else if ¬ s.graph.hasNode (validate_paper_id pid).2 then (s, false)
  else (expandLoop A cl rl s [(validate_paper_id pid).2] iterations, true)

/-- Result fields of `remove_node_with_connections` that the claims consult. -/
structure RemoveResult where
  ok : Bool
  removed : Option Str
  orphaned_nodes_removed : List Str
deriving DecidableEq

/-- The orphan sweep of `remove_node_with_connections`: iterate once over the
snapshot of current node keys, and for each key of current degree zero append
it to the orphan list and attempt `remove_paper_from_graph` on it. -/
def orphanSweep (snapshot : List Str) (s : EngineState) : EngineState × List Str :=
  snapshot.foldl
    (fun (acc : EngineState × List Str) k =>
      if acc.1.graph.degree k = 0 then ((remove_paper_from_graph acc.1 k).1, acc.2 ++ [k])
      else acc)
    (s, [])

/-- `GraphService.remove_node_with_connections`: validate, require presence,
remove the node via `remove_paper_from_graph`, then optionally run the
single orphan sweep over the remaining nodes. -/
def remove_node_with_connections (s : EngineState) (pid : Str)
    (remove_orphaned : Bool) : EngineState × RemoveResult :=
  let v := (validate_paper_id pid).1
  let nid := (validate_paper_id pid).2
  if ¬ v then (s, ⟨false, none, []⟩)
  else if ¬ s.graph.hasNode nid then (s, ⟨false, none, []⟩)
  else
    let r := remove_paper_from_graph s pid
    if ¬ r.2 then (r.1, ⟨false, none, []⟩)
    else if remove_orphaned then
      let sw := orphanSweep r.1.graph.keys r.1
      (sw.1, ⟨true, some nid, sw.2⟩)
    else (r.1, ⟨true, some nid, []⟩)

/-- One entry of the `top_papers` list of `get_graph_statistics` (the node id
with the attributes the code copies out; missing attributes take the
dictionary defaults). -/
structure TopPaper where
  id : Str
  title : Str
  citations : Nat
  year : Option Int
deriving DecidableEq

/-- Build the `papers_with_citations` entry for one graph node. -/
def nodeSummary (e : Str × Option Paper) : TopPaper :=
  { id := e.1
    title := (e.2.map Paper.title).getD (str "Untitled")
    citations := (e.2.map Paper.citations).getD 0
    year := e.2.bind Paper.year }

/-- Python's stable `list.sort(key=..., reverse=True)` on citation counts:
insert each element before the first element whose key is ≤ its own, so that
earlier elements precede later ones on ties. -/
def insertByCitationsDesc (x : TopPaper) : List TopPaper → List TopPaper
  | [] => [x]
  | y :: ys => if y.citations ≤ x.citations then x :: y :: ys
               else y :: insertByCitationsDesc x ys

/-- Stable descending sort by citation count. -/
def sortByCitationsDesc : List TopPaper → List TopPaper
  | [] => []
  | x :: xs => insertByCitationsDesc x (sortByCitationsDesc xs)

/-- `nx.density` for a directed graph: `m / (n·(n−1))`, defined as `0` for
`n ≤ 1` or `m = 0`. -/
def nxDensity (g : DiGraph) : ℚ :=
  if g.keys.length ≤ 1 ∨ g.edges.length = 0 then 0
  else (g.edges.length : ℚ) / ((g.keys.length : ℚ) * ((g.keys.length : ℚ) - 1))

/-- The fields of `get_graph_statistics` with discrete/rational content.
(The weak-connectivity flag and component count call into networkx
connectivity routines that no claim consults; they are omitted from the
model.)  Averages and density are exact rationals standing for the Python
float computations. -/
structure GraphStats where
  total_papers : Nat
  total_citations : Nat
  density : ℚ
  average_degree : ℚ
  max_degree : Nat
  top_papers : List TopPaper
deriving DecidableEq

/-- `GraphService.get_graph_statistics`: `none` models the
`{'error': 'No graph built yet'}` branch. -/
def get_graph_statistics (s : EngineState) : Option GraphStats :=
  if s.graph.nodes = [] then none
  else some
    { total_papers := s.graph.keys.length
      total_citations := s.graph.edges.length
      density := nxDensity s.graph
      average_degree :=
        ((s.graph.keys.map (fun k => s.graph.degree k)).sum : ℚ) / (s.graph.keys.length : ℚ)
      max_degree := (s.graph.keys.map (fun k => s.graph.degree k)).foldr max 0
      top_papers := (sortByCitationsDesc (s.graph.nodes.map nodeSummary)).take 10 }

namespace OpenAlexService

/-- The inline identifier normalization at the top of
`OpenAlexService.get_paper_by_id` (identical prefix logic to
`validate_paper_id`, but with no strip and no validity flag). -/
def oaNormalize (paper_id : Str) : Str :=
  if startsWith doiPre paper_id then doiUrlPre ++ paper_id
  else if ¬ startsWith openalexPre paper_id then openalexPre ++ paper_id
  else paper_id

/-- The adapter-level cache state (`OpenAlexService.paper_cache`, distinct
from the engine's cache). -/
structure OAState where
  paper_cache : List (Str × Paper)
deriving DecidableEq

/-- `OpenAlexService.get_paper_by_id`: normalize, consult the adapter cache,
on a miss perform the (rate-limited, retried) fetch-and-format — abstracted
into the deterministic oracle `fetch` — and on success store the paper in
the cache under the normalized id and return it. -/
def get_paper_by_id (fetch : Str → Option Paper) (st : OAState) (paper_id : Str) :
    OAState × Option Paper :=
  match lookupC st.paper_cache (oaNormalize paper_id) with
  | some p => (st, some p)
  | none =>
    match fetch (oaNormalize paper_id) with
    | some p => (⟨setC st.paper_cache (oaNormalize paper_id) p⟩, some p)
    | none => (st, none)

end OpenAlexService

/-- The public mutating operations quantified over by the dedup-invariant
claim: full rebuilds (`expand`) and incremental expansions
(`expandFromNode`). -/
inductive EngineOp where
  | expand (root : Str) (iterations cl rl : Nat)
  | expandFromNode (pid : Str) (iterations cl rl : Nat)

/-- Run one public operation against the engine state. -/
def runOp (A : Adapter) (s : EngineState) (op : EngineOp) : EngineState :=
  match op with
  | .expand root it cl rl => (build_graph_from_root A s root it cl rl).1
  | .expandFromNode pid it cl rl => (expand_from_node A s pid it cl rl).1

/-- Run a sequence of public operations. -/
def runOps (A : Adapter) (s : EngineState) (ops : List EngineOp) : EngineState :=
  ops.foldl (runOp A) s

/-- The graph-shape invariant relative to a membership set: node keys are
duplicate-free, canonical, and all recorded in the membership set; edges are
duplicate-free with no self-loops. -/
structure GInv (added : List Str) (g : DiGraph) : Prop where
  nodup_keys : g.keys.Nodup
  canonical_keys : ∀ k ∈ g.keys, IsCanonical k
  keys_added : ∀ k ∈ g.keys, k ∈ added
  nodup_edges : g.edges.Nodup
  no_self : ∀ e ∈ g.edges, ¬ (e : Str × Str).1 = e.2

/-- The engine-state invariant of the dedup claim. -/
def GraphInv (s : EngineState) : Prop := GInv s.added_papers s.graph

/-- A pending edge is safe to insert relative to a membership set. -/
def EdgeOk (added : List Str) (e : Str × Str) : Prop :=
  e.1 ∈ added ∧ e.2 ∈ added ∧ IsCanonical e.1 ∧ IsCanonical e.2 ∧ ¬ e.1 = e.2

/-- An adapter whose citation/reference id lists and whose returned
citing/reference record ids are already canonical — the realistic situation,
since the source returns fully-qualified OpenAlex URLs. -/
structure GoodAdapter (A : Adapter) : Prop where
  citations_canonical : ∀ q c, c ∈ A.citations_of q → IsCanonical c
  references_canonical : ∀ q c, c ∈ A.references_of q → IsCanonical c
  cited_papers_canonical : ∀ q n p, p ∈ A.get_top_cited_papers q n → IsCanonical p.id
  ref_papers_canonical : ∀ q n p, p ∈ A.get_top_reference_papers q n → IsCanonical p.id

/-- A public operation whose root identifier (if valid) normalizes to a
canonical fixed point — i.e. the root is not supplied as a bare DOI. -/
def GoodOp : EngineOp → Prop
  | .expand root _ _ _ =>
      (validate_paper_id root).1 = true → IsCanonical (validate_paper_id root).2
  | .expandFromNode _ _ _ _ => True

/-- Invariant of the frontier-processing accumulator inside one BFS round:
the engine invariant holds, the membership set has only grown, every pending
edge is safe, and every next-frontier id is recorded and canonical. -/
def AccInv (s0 : EngineState) (acc : EngineState × List (Str × Str) × List Str) : Prop :=
  GraphInv acc.1 ∧
  (∀ x ∈ s0.added_papers, x ∈ acc.1.added_papers) ∧
  (∀ e ∈ acc.2.1, EdgeOk acc.1.added_papers e) ∧
  (∀ x ∈ acc.2.2, x ∈ acc.1.added_papers ∧ IsCanonical x)

/-- Invariant of the accumulator inside one `expand_from_node` round. -/
def ExpAccInv (s0 : EngineState) (acc : EngineState × List Str) : Prop :=
  GraphInv acc.1 ∧
  (∀ x ∈ s0.added_papers, x ∈ acc.1.added_papers) ∧
  (∀ x ∈ acc.2, x ∈ acc.1.added_papers ∧ IsCanonical x)

/-! ### Concrete records, adapters and states used by witnesses and
counterexamples -/

/-- An adapter with no records at all (base for the concrete adapters). -/
def noAdapter : Adapter :=
  { get_paper_by_id := fun _ => none
    citations_of := fun _ => []
    references_of := fun _ => []
    get_top_cited_papers := fun _ _ => []
    get_top_reference_papers := fun _ _ => []
    get_papers_batch := fun _ => [] }

/-- A root paper with a canonical record id. -/
def paperW1 : Paper :=
  ⟨str "https://openalex.org/W1", str "Root paper", [str "Alice"], some 2020, 5⟩

/-- A citing paper with a canonical record id. -/
def paperW2 : Paper :=
  ⟨str "https://openalex.org/W2", str "Citing paper", [str "Bob"], some 2021, 3⟩

/-- A paper whose record carries an empty author list. -/
def paperW3 : Paper :=
  ⟨str "https://openalex.org/W3", str "Anonymous paper", [], some 2019, 2⟩

/-- A paper fetched for a DOI root; its record id is a canonical URL. -/
def paperW7 : Paper :=
  ⟨str "https://openalex.org/W7", str "DOI-rooted paper", [str "Carol"], some 2018, 1⟩

/-- A record that carries a bare (non-canonical) source-native id. -/
def paperW5bare : Paper :=
  ⟨str "W5", str "Bare-id paper", [str "Dan"], some 2017, 0⟩

/-- The paper the adapter returns when asked for the bare id `W5`. -/
def paperW5full : Paper :=
  ⟨str "https://openalex.org/W5", str "Other paper", [str "Eve"], some 2016, 4⟩

/-- A record whose native id differs from the identifier it was fetched by. -/
def paperW9 : Paper :=
  ⟨str "https://openalex.org/W9", str "Mismatched record", [str "Fred"], some 2015, 9⟩

/-- Adapter for the early-termination scenario: the root resolves but has no
citations and no references. -/
def adapterC1 : Adapter :=
  { noAdapter with
    get_paper_by_id := fun q => if q = str "W1" then some paperW1 else none }

/-- Adapter resolving two isolated roots. -/
def adapterC2 : Adapter :=
  { noAdapter with
    get_paper_by_id := fun q =>
      if q = str "W1" then some paperW1
      else if q = str "W2" then some paperW2 else none }

/-- Adapter for the DOI-root scenarios: a bare-DOI root with one citing
paper. -/
def adapterC4 : Adapter :=
  { noAdapter with
    get_paper_by_id := fun q =>
      if q = str "10.1/x" then some paperW7
      else if q = str "W2" then some paperW2 else none
    citations_of := fun q => if q = str "https://doi.org/10.1/x" then [str "W2"] else [] }

/-- A well-behaved adapter (canonical ids everywhere) used by the amended
dedup-invariant witness. -/
def adapterGood : Adapter :=
  { noAdapter with
    get_paper_by_id := fun q =>
      if q = str "W1" then some paperW1
      else if q = str "https://openalex.org/W2" then some paperW2 else none
    citations_of := fun q =>
      if q = str "https://openalex.org/W1" then [str "https://openalex.org/W2"] else []
    get_top_cited_papers := fun q _ =>
      if q = str "https://openalex.org/W1" then [paperW2] else [] }

/-- Adapter resolving a paper with an empty author list. -/
def adapterC6 : Adapter :=
  { noAdapter with
    get_paper_by_id := fun q => if q = str "W3" then some paperW3 else none }

/-- Adapter for the added-set frame-effect scenario: fetching `W1` yields a
record carrying the bare native id `W5`, which itself resolves. -/
def adapterC10 : Adapter :=
  { noAdapter with
    get_paper_by_id := fun q =>
      if q = str "W1" then some paperW5bare
      else if q = str "W5" then some paperW5full else none }

/-- The fetch oracle for the adapter-cache scenario: the canonical id
`https://openalex.org/W1` resolves to a record whose own id is
`https://openalex.org/W9`. -/
def fetchC9 : Str → Option Paper :=
  fun q => if q = str "https://openalex.org/W1" then some paperW9 else none

/-- Node key `A` of the orphan-sweep example. -/
def keyA : Str := str "https://openalex.org/WA"

/-- Node key `B` of the orphan-sweep example. -/
def keyB : Str := str "https://openalex.org/WB"

/-- Node key `C` of the orphan-sweep example. -/
def keyC : Str := str "https://openalex.org/WC"

/-- Paper at node `A`. -/
def paperA : Paper := ⟨keyA, str "Paper A", [str "Ann"], some 2010, 7⟩

/-- Paper at node `B`. -/
def paperB : Paper := ⟨keyB, str "Paper B", [str "Ben"], some 2011, 7⟩

/-- Paper at node `C`. -/
def paperC : Paper := ⟨keyC, str "Paper C", [str "Cat"], some 2012, 2⟩

/-- The graph `{A→B, B→C}` as an engine state (all keys canonical). -/
def stateABC : EngineState :=
  ⟨⟨[(keyA, some paperA), (keyB, some paperB), (keyC, some paperC)],
    [(keyA, keyB), (keyB, keyC)]⟩, [keyA, keyB, keyC], []⟩

/-- The graph produced by expanding the bare-DOI root `"10.1/x"` with one
citing paper: it contains the DOI-keyed root node, the citing node, and the
spurious re-normalized node created by `add_edges_from`. -/
def stateC7 : EngineState :=
  (build_graph_from_root adapterC4 initState (str "10.1/x") 1 3 3).1

/-- The DOI-form node key of the root above. -/
def keyDoi : Str := str "https://doi.org/10.1/x"

/-- The doubly-normalized key created by the round's `add_edges_from`. -/
def keyGarbage : Str := str "https://openalex.org/https://doi.org/10.1/x"

/-- The engine state after a first successful admission of `"W1"`. -/
def stateC5 : EngineState :=
  (add_paper_to_graph adapterC1 initState (str "W1") true none).1

/-- State after admitting `"W1"` whose record carries the bare native id
`"W5"` (so both `https://openalex.org/W1` and `W5` enter `added_papers`). -/
def stateC10add : EngineState :=
  (add_paper_to_graph adapterC10 initState (str "W1") true none).1

/-- State after then removing `"W1"` (only the normalized key is
discarded). -/
def stateC10rem : EngineState :=
  (remove_paper_from_graph stateC10add (str "W1")).1

/-- A state in which a paper was admitted under the DOI key
`https://doi.org/10.2/y` while its record id `https://openalex.org/W7` was
also recorded in `added_papers`. -/
def stateC10 : EngineState :=
  ⟨⟨[(str "https://doi.org/10.2/y", some paperW7)], []⟩,
   [str "https://doi.org/10.2/y", str "https://openalex.org/W7"], []⟩

/-! ## Helper lemmas about the string model -/

theorem startsWith_append_self (p t : Str) : startsWith p (p ++ t) = true := by
  induction p with
  | nil => rfl
  | cons a p' ih => simp [startsWith, ih]

theorem dropWhile_rdropWhile_dropWhile (p : Char → Bool) (l : Str) :
    List.dropWhile p (List.rdropWhile p (List.dropWhile p l)) =
      List.rdropWhile p (List.dropWhile p l) := by
  rcases h : List.rdropWhile p (List.dropWhile p l) with _ | ⟨a, v⟩
  · simp
  · obtain ⟨t, ht⟩ := List.rdropWhile_prefix p (List.dropWhile p l)
    rw [h] at ht
    have hdrop : List.dropWhile p (List.dropWhile p l) = List.dropWhile p l :=
      List.dropWhile_idempotent p l
    rw [← ht] at hdrop
    have hpa : p a = false := by
      by_contra hcon
      have hpa' : p a = true := by
        cases hx : p a
        · exact absurd hx hcon
        · rfl
      rw [List.cons_append, List.dropWhile_cons_of_pos hpa'] at hdrop
      have hlen := congrArg List.length hdrop
      have hle := (List.dropWhile_sublist (l := v ++ t) p).length_le
      simp only [List.length_cons, List.length_append] at hlen hle
      omega
    rw [List.dropWhile_cons_of_neg (by simp [hpa])]

theorem pyStrip_idem (s : Str) : pyStrip (pyStrip s) = pyStrip s := by
  unfold pyStrip
  rw [dropWhile_rdropWhile_dropWhile, List.rdropWhile_idempotent]

theorem pyStrip_getLast?_not_ws (s : Str) (c : Char)
    (h : (pyStrip s).getLast? = some c) : c.isWhitespace = false := by
  have hne : pyStrip s ≠ [] := by
    intro hnil; rw [hnil] at h; cases h
  have hne' : List.rdropWhile (fun c => c.isWhitespace)
      (List.dropWhile (fun c => c.isWhitespace) s) ≠ [] := hne
  have hlast := List.rdropWhile_last_not (fun c => c.isWhitespace)
    (List.dropWhile (fun c => c.isWhitespace) s) hne'
  have heq : (pyStrip s).getLast hne = c := by
    have := List.getLast?_eq_getLast_of_ne_nil hne
    rw [this] at h
    exact Option.some.inj h
  have : ¬ ((pyStrip s).getLast hne).isWhitespace = true := hlast
  rw [heq] at this
  cases hx : c.isWhitespace
  · rfl
  · exact absurd hx this

theorem pyStrip_openalex_append (t : Str) (ht : pyStrip t = t) :
    pyStrip (openalexPre ++ t) = openalexPre ++ t := by
  unfold pyStrip
  have h1 : List.dropWhile (fun c => c.isWhitespace) (openalexPre ++ t) =
      openalexPre ++ t := by
    rw [show openalexPre ++ t = 'h' :: ((str "ttps://openalex.org/") ++ t) from rfl]
    rw [List.dropWhile_cons_of_neg (by decide)]
  rw [h1]
  rw [List.rdropWhile_eq_self_iff]
  intro hl
  match t, ht, hl with
  | [], _, hl =>
    have hlast : (openalexPre ++ ([] : Str)).getLast hl = '/' := by
      rw [List.getLast_congr hl (by decide) (List.append_nil openalexPre)]
      rfl
    rw [hlast]; decide
  | b :: t', ht, hl =>
    have htne : b :: t' ≠ ([] : Str) := List.cons_ne_nil _ _
    have h2 : (openalexPre ++ (b :: t')).getLast? = (b :: t').getLast? :=
      List.getLast?_append_of_ne_nil openalexPre htne
    have h3 : (openalexPre ++ (b :: t')).getLast? =
        some ((openalexPre ++ (b :: t')).getLast hl) :=
      List.getLast?_eq_getLast_of_ne_nil hl
    have h5 : (pyStrip (b :: t')).getLast? =
        some ((openalexPre ++ (b :: t')).getLast hl) := by
      rw [ht, ← h2]; exact h3
    have h6 := pyStrip_getLast?_not_ws (b :: t') _ h5
    rw [h6]
    simp

theorem startsWith_doiPre_openalex (t : Str) :
    startsWith doiPre (openalexPre ++ t) = false := rfl

theorem openalex_append_ne_nil (t : Str) : ¬ openalexPre ++ t = [] := by
  intro h
  have : ('h' : Char) :: ((str "ttps://openalex.org/") ++ t) = [] := h
  cases this

/-! ## C3 — idempotence of identifier normalization -/

/-- C3 (counterexample): normalization is *not* idempotent on the accepted
bare-DOI input `"10.1000/test"`: the canonical DOI-URL output is re-wrapped
with the OpenAlex prefix on a second pass. -/
theorem C3_counterexample_doi_not_idempotent :
    validate_paper_id (validate_paper_id (str "10.1000/test")).2 ≠
      (true, (validate_paper_id (str "10.1000/test")).2) := by decide

/-- C3 (amended): normalization is idempotent for every accepted input whose
stripped form does not start with the DOI prefix `"10."` (bare native ids and
both fully-qualified URL forms); re-normalizing the canonical output returns
it unchanged.  Bare-DOI inputs are excluded: for them the canonical DOI-URL
form is wrapped again, as the counterexample shows. -/
theorem C3_normalize_idempotent_non_doi (s : Str)
    (hv : (validate_paper_id s).1 = true)
    (hdoi : startsWith doiPre (pyStrip s) = false) :
    validate_paper_id (validate_paper_id s).2 = (true, (validate_paper_id s).2) := by
  have hnil : ¬ pyStrip s = [] := by
    intro hnil
    unfold validate_paper_id at hv
    rw [hnil] at hv
    simp at hv
  by_cases hoa : startsWith openalexPre (pyStrip s) = true
  · have hout : (validate_paper_id s).2 = pyStrip s := by
      unfold validate_paper_id
      rw [if_neg hnil, if_neg (show ¬ startsWith doiPre (pyStrip s) = true by simp [hdoi]),
        if_neg (show ¬ ¬ startsWith openalexPre (pyStrip s) = true by simp [hoa])]
    rw [hout]
    unfold validate_paper_id
    rw [pyStrip_idem]
    rw [if_neg hnil, if_neg (show ¬ startsWith doiPre (pyStrip s) = true by simp [hdoi]),
      if_neg (show ¬ ¬ startsWith openalexPre (pyStrip s) = true by simp [hoa])]
  · have hout : (validate_paper_id s).2 = openalexPre ++ pyStrip s := by
      unfold validate_paper_id
      rw [if_neg hnil, if_neg (show ¬ startsWith doiPre (pyStrip s) = true by simp [hdoi]),
        if_pos hoa]
    rw [hout]
    unfold validate_paper_id
    rw [pyStrip_openalex_append _ (pyStrip_idem s)]
    rw [if_neg (openalex_append_ne_nil _),
      if_neg (show ¬ startsWith doiPre (openalexPre ++ pyStrip s) = true by
        simp [startsWith_doiPre_openalex]),
      if_neg (show ¬ ¬ startsWith openalexPre (openalexPre ++ pyStrip s) = true by
        simp [startsWith_append_self])]

/-- C3 (witness): the amended idempotence theorem applied to the bare native
id `"W123"`. -/
theorem C3_witness_bare_id :
    (validate_paper_id (str "W123")).1 = true ∧
    startsWith doiPre (pyStrip (str "W123")) = false ∧
    validate_paper_id (validate_paper_id (str "W123")).2 =
      (true, (validate_paper_id (str "W123")).2) :=
  ⟨by decide, by decide, C3_normalize_idempotent_non_doi (str "W123") (by decide) (by decide)⟩

/-! ## Helper lemmas about sets and the graph structure -/

theorem mem_addSet (s : List Str) (k x : Str) : x ∈ addSet s k ↔ x ∈ s ∨ x = k := by
  unfold addSet
  split
  · constructor
    · exact Or.inl
    · rintro (hx | rfl)
      · exact hx
      · assumption
  · simp [List.mem_append]

theorem mem_addSet_self (s : List Str) (k : Str) : k ∈ addSet s k :=
  (mem_addSet s k k).mpr (Or.inr rfl)

theorem mem_addSet_of_mem (s : List Str) (k : Str) {x : Str} (h : x ∈ s) :
    x ∈ addSet s k :=
  (mem_addSet s k x).mpr (Or.inl h)

theorem hasNode_iff_mem_keys (g : DiGraph) (k : Str) :
    g.hasNode k = true ↔ k ∈ g.keys := by
  unfold DiGraph.hasNode DiGraph.keys
  simp [List.any_eq_true]

theorem addNodeData_edges (g : DiGraph) (k : Str) (p : Paper) :
    (g.addNodeData k p).edges = g.edges := by
  unfold DiGraph.addNodeData
  split <;> rfl

theorem addNodeData_keys (g : DiGraph) (k : Str) (p : Paper) :
    (g.addNodeData k p).keys = if g.hasNode k then g.keys else g.keys ++ [k] := by
  unfold DiGraph.addNodeData
  split
  · show (g.nodes.map _).map Prod.fst = g.nodes.map Prod.fst
    rw [List.map_map]
    apply List.map_congr_left
    intro e _
    by_cases he : e.1 = k
    · simp [he]
    · simp [he]
  · show (g.nodes ++ [(k, some p)]).map Prod.fst = g.nodes.map Prod.fst ++ [k]
    simp

theorem mem_keys_addNodeData (g : DiGraph) (k : Str) (p : Paper) :
    k ∈ (g.addNodeData k p).keys := by
  rw [addNodeData_keys]
  split
  · exact (hasNode_iff_mem_keys g k).mp (by assumption)
  · simp

theorem resolvePaper_state {A : Adapter} {s : EngineState} {pid nid : Str}
    {pd : Option Paper} {s1 : EngineState} {p : Paper}
    (h : resolvePaper A s pid nid pd = some (s1, p)) :
    s1.graph = s.graph ∧ s1.added_papers = s.added_papers := by
  rcases pd with _ | q
  · rcases hc : lookupC s.paper_cache nid with _ | q
    · rcases hg : A.get_paper_by_id pid with _ | q
      · unfold resolvePaper at h
        rw [hc, hg] at h
        cases h
      · unfold resolvePaper at h
        rw [hc, hg] at h
        have h' : (({ s with
            paper_cache := setC (setC s.paper_cache nid q) q.id q } : EngineState), q) =
            (s1, p) := Option.some.inj h
        injection h' with h1 _
        subst h1
        exact ⟨rfl, rfl⟩
    · unfold resolvePaper at h
      rw [hc] at h
      have h' : ((s, q) : EngineState × Paper) = (s1, p) := Option.some.inj h
      injection h' with h1 _
      subst h1
      exact ⟨rfl, rfl⟩
  · unfold resolvePaper at h
    have h' : ((s, q) : EngineState × Paper) = (s1, p) := Option.some.inj h
    injection h' with h1 _
    subst h1
    exact ⟨rfl, rfl⟩

theorem add_success_spec {A : Adapter} {s : EngineState} {pid : Str} {r : Bool}
    {pd : Option Paper} {s' : EngineState}
    (h : add_paper_to_graph A s pid r pd = (s', true)) :
    (validate_paper_id pid).1 = true ∧
    (validate_paper_id pid).2 ∉ s.added_papers ∧
    (validate_paper_id pid).2 ∈ s'.added_papers ∧
    (∀ x ∈ s.added_papers, x ∈ s'.added_papers) ∧
    ∃ q, s'.graph = s.graph.addNodeData (validate_paper_id pid).2 q := by
  unfold add_paper_to_graph at h
  by_cases h1 : ¬ (validate_paper_id pid).1 = true ∨ (validate_paper_id pid).2 ∈ s.added_papers
  · rw [if_pos h1] at h
    simp at h
  · rw [if_neg h1] at h
    push_neg at h1
    obtain ⟨hv, hnin⟩ := h1
    rcases hr : resolvePaper A s pid (validate_paper_id pid).2 pd with _ | ⟨s1, q⟩
    · rw [hr] at h
      simp at h
    · rw [hr] at h
      obtain ⟨hg, ha⟩ := resolvePaper_state hr
      have h' : (if ¬ r = true ∧ q.authors = [] then (s1, false)
          else ({ s1 with
            graph := s1.graph.addNodeData (validate_paper_id pid).2 q,
            added_papers :=
              if ¬ q.id = (validate_paper_id pid).2 then
                addSet (addSet s1.added_papers (validate_paper_id pid).2) q.id
              else addSet s1.added_papers (validate_paper_id pid).2 }, true)) =
          (s', true) := h
      clear h
      split at h'
      · simp at h'
      · injection h' with h2 _
        subst h2
        refine ⟨hv, hnin, ?_, ?_, ?_⟩
        · show (validate_paper_id pid).2 ∈
            (if ¬ q.id = (validate_paper_id pid).2 then
              addSet (addSet s1.added_papers (validate_paper_id pid).2) q.id
            else addSet s1.added_papers (validate_paper_id pid).2)
          split
          · exact mem_addSet_of_mem _ _ (mem_addSet_self _ _)
          · exact mem_addSet_self _ _
        · intro x hx
          show x ∈
            (if ¬ q.id = (validate_paper_id pid).2 then
              addSet (addSet s1.added_papers (validate_paper_id pid).2) q.id
            else addSet s1.added_papers (validate_paper_id pid).2)
          have hx1 : x ∈ s1.added_papers := by rw [ha]; exact hx
          split
          · exact mem_addSet_of_mem _ _ (mem_addSet_of_mem _ _ hx1)
          · exact mem_addSet_of_mem _ _ hx1
        · refine ⟨q, ?_⟩
          show s1.graph.addNodeData (validate_paper_id pid).2 q =
            s.graph.addNodeData (validate_paper_id pid).2 q
          rw [hg]

theorem add_fail_spec {A : Adapter} {s : EngineState} {pid : Str} {r : Bool}
    {pd : Option Paper}
    (h : (add_paper_to_graph A s pid r pd).2 = false) :
    (add_paper_to_graph A s pid r pd).1.graph = s.graph ∧
    (add_paper_to_graph A s pid r pd).1.added_papers = s.added_papers := by
  rcases hadd : add_paper_to_graph A s pid r pd with ⟨s2, b⟩
  rw [hadd] at h
  cases b with
  | true => cases h
  | false =>
    clear h
    unfold add_paper_to_graph at hadd
    by_cases h1 : ¬ (validate_paper_id pid).1 = true ∨
        (validate_paper_id pid).2 ∈ s.added_papers
    · rw [if_pos h1] at hadd
      injection hadd with h2 _
      subst h2
      exact ⟨rfl, rfl⟩
    · rw [if_neg h1] at hadd
      rcases hr : resolvePaper A s pid (validate_paper_id pid).2 pd with _ | ⟨s1, q⟩
      · rw [hr] at hadd
        have h' : ((s, false) : EngineState × Bool) = (s2, false) := hadd
        injection h' with h2 _
        subst h2
        exact ⟨rfl, rfl⟩
      · rw [hr] at hadd
        obtain ⟨hg, ha⟩ := resolvePaper_state hr
        have h' : (if ¬ r = true ∧ q.authors = [] then (s1, false)
            else ({ s1 with
              graph := s1.graph.addNodeData (validate_paper_id pid).2 q,
              added_papers :=
                if ¬ q.id = (validate_paper_id pid).2 then
                  addSet (addSet s1.added_papers (validate_paper_id pid).2) q.id
                else addSet s1.added_papers (validate_paper_id pid).2 }, true)) =
            (s2, false) := hadd
        clear hadd
        split at h'
        · injection h' with h2 _
          subst h2
          exact ⟨hg, ha⟩
        · simp at h'

theorem add_added_mono {A : Adapter} {s : EngineState} {pid : Str} {r : Bool}
    {pd : Option Paper} {x : Str} (hx : x ∈ s.added_papers) :
    x ∈ (add_paper_to_graph A s pid r pd).1.added_papers := by
  rcases hb : (add_paper_to_graph A s pid r pd).2 with _ | _
  · rw [(add_fail_spec hb).2]
    exact hx
  · have h : add_paper_to_graph A s pid r pd = ((add_paper_to_graph A s pid r pd).1, true) := by
      rw [← hb]
    obtain ⟨_, _, _, hmono, _⟩ := add_success_spec h
    exact hmono x hx

theorem add_eval {A : Adapter} {s : EngineState} {pid : Str} (b : Bool)
    {pd : Option Paper} {s1 : EngineState} {q : Paper}
    (hcond : ¬ (¬ (validate_paper_id pid).1 = true ∨
      (validate_paper_id pid).2 ∈ s.added_papers))
    (hres : resolvePaper A s pid (validate_paper_id pid).2 pd = some (s1, q)) :
    add_paper_to_graph A s pid b pd =
      (if ¬ b = true ∧ q.authors = [] then (s1, false)
       else ({ s1 with
          graph := s1.graph.addNodeData (validate_paper_id pid).2 q,
          added_papers :=
            if ¬ q.id = (validate_paper_id pid).2 then
              addSet (addSet s1.added_papers (validate_paper_id pid).2) q.id
            else addSet s1.added_papers (validate_paper_id pid).2 }, true)) := by
  unfold add_paper_to_graph
  rw [if_neg hcond, hres]

/-! ## C5 — repeated addPaper calls are no-ops -/

/-- C5: once an identifier has been admitted, every later `add_paper_to_graph`
call with that same identifier string returns `false` and leaves the state
untouched (so the paper is admitted at most once). -/
theorem C5_addPaper_noop_on_repeat (A : Adapter) (s : EngineState) (pid : Str)
    (r : Bool) (pd : Option Paper) (s1 : EngineState)
    (h : add_paper_to_graph A s pid r pd = (s1, true)) :
    ∀ (r' : Bool) (pd' : Option Paper),
      add_paper_to_graph A s1 pid r' pd' = (s1, false) := by
  obtain ⟨_, _, hmem, _, _⟩ := add_success_spec h
  intro r' pd'
  unfold add_paper_to_graph
  rw [if_pos (Or.inr hmem)]

/-- C5 (witness): admitting `"W1"` once succeeds; the second call with the
same identifier is a no-op returning `false`. -/
theorem C5_witness_repeat_add :
    add_paper_to_graph adapterC1 initState (str "W1") true none = (stateC5, true) ∧
    add_paper_to_graph adapterC1 stateC5 (str "W1") false none = (stateC5, false) :=
  ⟨by decide,
   C5_addPaper_noop_on_repeat adapterC1 initState (str "W1") true none stateC5
     (by decide) false none⟩

/-! ## C6 — strict author filtering inside the engine -/

/-- C6: a resolvable candidate whose record has an empty author list is never
admitted as a non-root node (`add_paper_to_graph` with `is_root = false`
returns `false` and leaves the graph unchanged), while the same paper offered
as a root is admitted without the author check. -/
theorem C6_strict_author_filter (A : Adapter) (s : EngineState) (pid : Str) (p : Paper)
    (hv : (validate_paper_id pid).1 = true)
    (hnin : (validate_paper_id pid).2 ∉ s.added_papers)
    (hmiss : lookupC s.paper_cache (validate_paper_id pid).2 = none)
    (hres : A.get_paper_by_id pid = some p)
    (hauth : p.authors = []) :
    (add_paper_to_graph A s pid false none).2 = false ∧
    (add_paper_to_graph A s pid false none).1.graph = s.graph ∧
    (add_paper_to_graph A s pid true none).2 = true ∧
    (validate_paper_id pid).2 ∈ (add_paper_to_graph A s pid true none).1.graph.keys := by
  have hcond : ¬ (¬ (validate_paper_id pid).1 = true ∨
      (validate_paper_id pid).2 ∈ s.added_papers) := by
    push_neg
    exact ⟨hv, hnin⟩
  have hresolve : resolvePaper A s pid (validate_paper_id pid).2 none =
      some ({ s with
        paper_cache := setC (setC s.paper_cache (validate_paper_id pid).2 p) p.id p }, p) := by
    unfold resolvePaper
    rw [hmiss, hres]
  refine ⟨?_, ?_, ?_, ?_⟩
  · rw [add_eval false hcond hresolve, if_pos ⟨by simp, hauth⟩]
  · rw [add_eval false hcond hresolve, if_pos ⟨by simp, hauth⟩]
  · rw [add_eval true hcond hresolve, if_neg (by simp)]
  · rw [add_eval true hcond hresolve, if_neg (by simp)]
    exact mem_keys_addNodeData _ _ _

/-- C6 (witness): the filter theorem applied to the concrete adapter that
resolves `"W3"` to a record with an empty author list. -/
theorem C6_witness_zero_authors :
    (add_paper_to_graph adapterC6 initState (str "W3") false none).2 = false ∧
    (add_paper_to_graph adapterC6 initState (str "W3") false none).1.graph =
      initState.graph ∧
    (add_paper_to_graph adapterC6 initState (str "W3") true none).2 = true ∧
    (validate_paper_id (str "W3")).2 ∈
      (add_paper_to_graph adapterC6 initState (str "W3") true none).1.graph.keys :=
  C6_strict_author_filter adapterC6 initState (str "W3") paperW3
    (by decide) (by decide) (by decide) (by decide) (by decide)

/-! ## C9 — single-paper lookup and the adapter cache -/

theorem lookupC_setC_self (c : List (Str × Paper)) (k : Str) (v : Paper) :
    lookupC (setC c k v) k = some v := by
  induction c with
  | nil => simp [setC, lookupC]
  | cons e rest ih =>
    unfold setC
    by_cases he : e.1 = k
    · rw [if_pos he]
      simp [lookupC]
    · rw [if_neg he]
      show lookupC (e :: setC rest k v) k = some v
      unfold lookupC
      rw [if_neg he]
      exact ih

/-- C9 (counterexample): a cache-missing fetch of `"W1"` returns a record
whose native id is `https://openalex.org/W9`, yet the resulting adapter cache
has no entry under that native id — the paper is cached under the canonical
key only, contradicting the claimed dual-key store. -/
theorem C9_counterexample_native_id_not_cached :
    (OpenAlexService.get_paper_by_id fetchC9 ⟨[]⟩ (str "W1")).2 = some paperW9 ∧
    lookupC (OpenAlexService.get_paper_by_id fetchC9 ⟨[]⟩ (str "W1")).1.paper_cache
      paperW9.id = none := by decide

/-- C9 (amended): when the identifier is not cached and the fetch resolves,
`get_paper_by_id` stores the paper in the adapter cache under the canonical
(normalized) identifier only and returns the paper; no separate source-native
key is written by this operation. -/
theorem C9_fetchOne_caches_canonical_only (fetch : Str → Option Paper)
    (st : OpenAlexService.OAState) (pid : Str) (p : Paper)
    (hmiss : lookupC st.paper_cache (OpenAlexService.oaNormalize pid) = none)
    (hfetch : fetch (OpenAlexService.oaNormalize pid) = some p) :
    OpenAlexService.get_paper_by_id fetch st pid =
      (⟨setC st.paper_cache (OpenAlexService.oaNormalize pid) p⟩, some p) ∧
    lookupC (setC st.paper_cache (OpenAlexService.oaNormalize pid) p)
      (OpenAlexService.oaNormalize pid) = some p := by
  constructor
  · unfold OpenAlexService.get_paper_by_id
    rw [hmiss, hfetch]
  · exact lookupC_setC_self _ _ _

/-- C9 (witness): the amended cache theorem applied to the concrete fetch
oracle with a mismatched native id. -/
theorem C9_witness_cache_store :
    OpenAlexService.get_paper_by_id fetchC9 ⟨[]⟩ (str "W1") =
      (⟨setC [] (OpenAlexService.oaNormalize (str "W1")) paperW9⟩, some paperW9) ∧
    lookupC (setC [] (OpenAlexService.oaNormalize (str "W1")) paperW9)
      (OpenAlexService.oaNormalize (str "W1")) = some paperW9 :=
  C9_fetchOne_caches_canonical_only fetchC9 ⟨[]⟩ (str "W1") paperW9
    (by decide) (by decide)

/-! ## C10 — node removal shrinks only the normalized membership entry -/

/-- C10 (counterexample): the record admitted for `"W1"` carried the bare
native id `"W5"`; after removal, `is_paper_in_graph "W5"` is still `true`,
but a later `add_paper_to_graph "W5"` is *not* rejected (it succeeds),
because `"W5"` normalizes to `https://openalex.org/W5`, which is not the
discarded key — contradicting the claim that the native id is always
rejected afterwards. -/
theorem C10_counterexample_native_id_readmitted :
    (add_paper_to_graph adapterC10 initState (str "W1") true none).2 = true ∧
    (remove_paper_from_graph stateC10add (str "W1")).2 = true ∧
    stateC10rem.graph.keys = [] ∧
    is_paper_in_graph stateC10rem (str "W5") = true ∧
    (add_paper_to_graph adapterC10 stateC10rem (str "W5") false none).2 = true := by
  decide

/-- C10 (amended): a successful `remove_paper_from_graph` discards exactly
the normalized identifier from `added_papers`; any other recorded identifier
`x` (in particular a source-native record id) survives, so
`is_paper_in_graph x` still answers `true` while the node is gone — and a
later `add_paper_to_graph` with `x` is rejected *provided `x` is itself in
canonical form* (if `x` normalizes to the discarded key instead, the
readmission is not blocked, as the counterexample shows). -/
theorem C10_remove_discards_only_normalized (A : Adapter) (s : EngineState)
    (pid x : Str)
    (hv : (validate_paper_id pid).1 = true)
    (hin : s.graph.hasNode (validate_paper_id pid).2 = true)
    (hx : x ∈ s.added_papers)
    (hxne : ¬ x = (validate_paper_id pid).2)
    (hxv : (validate_paper_id x).1 = true) :
    (remove_paper_from_graph s pid).2 = true ∧
    (remove_paper_from_graph s pid).1.added_papers =
      s.added_papers.filter (fun y => ¬ y = (validate_paper_id pid).2) ∧
    x ∈ (remove_paper_from_graph s pid).1.added_papers ∧
    is_paper_in_graph (remove_paper_from_graph s pid).1 x = true ∧
    (IsCanonical x →
      ∀ (r : Bool) (pd : Option Paper),
        add_paper_to_graph A (remove_paper_from_graph s pid).1 x r pd =
          ((remove_paper_from_graph s pid).1, false)) := by
  have hrem : remove_paper_from_graph s pid =
      ({ s with
          graph := (s.graph.removeOutEdges (validate_paper_id pid).2).removeNode
            (validate_paper_id pid).2,
          added_papers :=
            s.added_papers.filter (fun y => ¬ y = (validate_paper_id pid).2) }, true) := by
    unfold remove_paper_from_graph
    rw [if_neg (by simp [hv]), if_neg (by simp [hin])]
  have hmem : x ∈ (remove_paper_from_graph s pid).1.added_papers := by
    rw [hrem]
    show x ∈ s.added_papers.filter (fun y => ¬ y = (validate_paper_id pid).2)
    rw [List.mem_filter]
    exact ⟨hx, by simp [hxne]⟩
  refine ⟨by rw [hrem], by rw [hrem], hmem, ?_, ?_⟩
  · unfold is_paper_in_graph
    rw [if_neg (by simp [hxv]), if_pos (Or.inr hmem)]
  · intro hcan r pd
    have hx2 : (validate_paper_id x).2 = x := congrArg Prod.snd hcan
    unfold add_paper_to_graph
    rw [if_pos (Or.inr (by rw [hx2]; exact hmem))]

/-- C10 (witness): the amended theorem applied to a state holding the DOI key
`https://doi.org/10.2/y` with the canonical record id
`https://openalex.org/W7` also in the added set. -/
theorem C10_witness_native_id_survives :
    (remove_paper_from_graph stateC10 (str "10.2/y")).2 = true ∧
    (remove_paper_from_graph stateC10 (str "10.2/y")).1.added_papers =
      stateC10.added_papers.filter
        (fun y => ¬ y = (validate_paper_id (str "10.2/y")).2) ∧
    str "https://openalex.org/W7" ∈
      (remove_paper_from_graph stateC10 (str "10.2/y")).1.added_papers ∧
    is_paper_in_graph (remove_paper_from_graph stateC10 (str "10.2/y")).1
      (str "https://openalex.org/W7") = true ∧
    (IsCanonical (str "https://openalex.org/W7") →
      ∀ (r : Bool) (pd : Option Paper),
        add_paper_to_graph noAdapter (remove_paper_from_graph stateC10 (str "10.2/y")).1
          (str "https://openalex.org/W7") r pd =
          ((remove_paper_from_graph stateC10 (str "10.2/y")).1, false)) :=
  C10_remove_discards_only_normalized noAdapter stateC10 (str "10.2/y")
    (str "https://openalex.org/W7") (by decide) (by decide) (by decide)
    (by decide) (by decide)

/-! ## C1 — early termination on an isolated root -/

theorem buildRound_no_candidates (A : Adapter) (cl rl : Nat) (s : EngineState)
    (nid : Str) (hc : A.citations_of nid = []) (hr : A.references_of nid = []) :
    buildRound A cl rl s [nid] = (s, []) := by
  simp [buildRound, roundFold, roundPrimed, roundNewIds, roundCits, roundRefs,
    get_citations_and_references_batch, hc, hr, processFrontierPaper,
    dedupKeepFirst, dedupAux, cacheBatchPapers, DiGraph.addEdgesFrom]

theorem buildLoop_stops (A : Adapter) (cl rl : Nat) (s : EngineState)
    (cur : List Str) (n : Nat) (h : buildRound A cl rl s cur = (s, [])) :
    buildLoop A cl rl s cur n = s := by
  cases n with
  | zero => rfl
  | succ m =>
    unfold buildLoop
    rw [h]
    simp

theorem build_root_eval (A : Adapter) (s : EngineState) (root : Str)
    (n cl rl : Nat)
    (hv : (validate_paper_id root).1 = true)
    (hsucc : (add_paper_to_graph A initState root true none).2 = true)
    (hround : buildRound A cl rl (add_paper_to_graph A initState root true none).1
      [(validate_paper_id root).2] =
      ((add_paper_to_graph A initState root true none).1, [])) :
    build_graph_from_root A s root n cl rl =
      ((add_paper_to_graph A initState root true none).1,
       .ok (get_graph_data (add_paper_to_graph A initState root true none).1)) := by
  unfold build_graph_from_root
  rw [hsucc]
  rw [if_neg (by simp), if_neg (by simp [hv])]
  rw [buildLoop_stops A cl rl (add_paper_to_graph A initState root true none).1
    [(validate_paper_id root).2] n hround]

/-- C1: with a resolvable root that has no citing papers and no references,
`expand(root, iterations=5, citedLimit=3, refLimit=3)` produces a snapshot
with exactly one node (the normalized root) and zero edges, and the whole
run coincides with the run at `iterations = 1` — the loop terminates after
the first round because the frontier empties. -/
theorem C1_expand_early_termination (A : Adapter) (s : EngineState) (root : Str)
    (p : Paper)
    (hv : (validate_paper_id root).1 = true)
    (hres : A.get_paper_by_id root = some p)
    (hcit : A.citations_of (validate_paper_id root).2 = [])
    (href : A.references_of (validate_paper_id root).2 = []) :
    (build_graph_from_root A s root 5 3 3).2 =
      BuildResult.ok ⟨[(validate_paper_id root).2], [], 1, 0⟩ ∧
    build_graph_from_root A s root 5 3 3 = build_graph_from_root A s root 1 3 3 := by
  have hcond : ¬ (¬ (validate_paper_id root).1 = true ∨
      (validate_paper_id root).2 ∈ initState.added_papers) := by
    push_neg
    refine ⟨hv, ?_⟩
    show (validate_paper_id root).2 ∉ ([] : List Str)
    simp
  have hresolve : resolvePaper A initState root (validate_paper_id root).2 none =
      some ({ initState with
        paper_cache :=
          setC (setC initState.paper_cache (validate_paper_id root).2 p) p.id p }, p) := by
    unfold resolvePaper
    rw [show lookupC initState.paper_cache (validate_paper_id root).2 = none from rfl,
      hres]
  have hadd := add_eval true hcond hresolve
  rw [if_neg (by simp)] at hadd
  have hsucc : (add_paper_to_graph A initState root true none).2 = true := by
    rw [hadd]
  have hkeys : (add_paper_to_graph A initState root true none).1.graph.keys =
      [(validate_paper_id root).2] := by
    rw [hadd]
    show (DiGraph.empty.addNodeData (validate_paper_id root).2 p).keys = _
    rw [addNodeData_keys]
    rw [if_neg (by simp [DiGraph.hasNode, DiGraph.empty])]
    rfl
  have hedges : (add_paper_to_graph A initState root true none).1.graph.edges = [] := by
    rw [hadd]
    show (DiGraph.empty.addNodeData (validate_paper_id root).2 p).edges = _
    rw [addNodeData_edges]
    rfl
  have hround : buildRound A 3 3 (add_paper_to_graph A initState root true none).1
      [(validate_paper_id root).2] =
      ((add_paper_to_graph A initState root true none).1, []) := by
    exact buildRound_no_candidates A 3 3
      (add_paper_to_graph A initState root true none).1
      (validate_paper_id root).2 hcit href
  have hdata : get_graph_data (add_paper_to_graph A initState root true none).1 =
      ⟨[(validate_paper_id root).2], [], 1, 0⟩ := by
    unfold get_graph_data
    rw [hkeys, hedges]
    rfl
  constructor
  · rw [build_root_eval A s root 5 3 3 hv hsucc hround, hdata]
  · rw [build_root_eval A s root 5 3 3 hv hsucc hround,
      build_root_eval A s root 1 3 3 hv hsucc hround]

/-- C1 (witness): the early-termination theorem applied to the concrete
adapter whose only record `"W1"` has no citations and no references. -/
theorem C1_witness_isolated_root :
    (validate_paper_id (str "W1")).1 = true ∧
    adapterC1.get_paper_by_id (str "W1") = some paperW1 ∧
    (build_graph_from_root adapterC1 initState (str "W1") 5 3 3).2 =
      BuildResult.ok ⟨[(validate_paper_id (str "W1")).2], [], 1, 0⟩ ∧
    build_graph_from_root adapterC1 initState (str "W1") 5 3 3 =
      build_graph_from_root adapterC1 initState (str "W1") 1 3 3 :=
  ⟨by decide, by decide,
   (C1_expand_early_termination adapterC1 initState (str "W1") paperW1
     (by decide) (by decide) (by decide) (by decide)).1,
   (C1_expand_early_termination adapterC1 initState (str "W1") paperW1
     (by decide) (by decide) (by decide) (by decide)).2⟩

/-! ## C8 — graph statistics -/

theorem mem_insertByCitationsDesc (x : TopPaper) (l : List TopPaper) (z : TopPaper)
    (hz : z ∈ insertByCitationsDesc x l) : z = x ∨ z ∈ l := by
  induction l with
  | nil =>
    unfold insertByCitationsDesc at hz
    rcases List.mem_singleton.mp hz with rfl
    exact Or.inl rfl
  | cons y ys ih =>
    unfold insertByCitationsDesc at hz
    split at hz
    · rcases List.mem_cons.mp hz with rfl | hz'
      · exact Or.inl rfl
      · exact Or.inr hz'
    · rcases List.mem_cons.mp hz with rfl | hz'
      · exact Or.inr (List.mem_cons_self _ _)
      · rcases ih hz' with rfl | hz''
        · exact Or.inl rfl
        · exact Or.inr (List.mem_cons_of_mem _ hz'')

theorem sorted_insertByCitationsDesc (x : TopPaper) (l : List TopPaper)
    (hl : List.Sorted (fun a b => b.citations ≤ a.citations) l) :
    List.Sorted (fun a b => b.citations ≤ a.citations) (insertByCitationsDesc x l) := by
  induction l with
  | nil => simp [insertByCitationsDesc]
  | cons y ys ih =>
    rw [List.sorted_cons] at hl
    unfold insertByCitationsDesc
    split
    · rw [List.sorted_cons]
      constructor
      · intro b hb
        rcases List.mem_cons.mp hb with rfl | hb'
        · assumption
        · exact le_trans (hl.1 b hb') (by assumption)
      · rw [List.sorted_cons]
        exact hl
    · rw [List.sorted_cons]
      constructor
      · intro b hb
        rcases mem_insertByCitationsDesc x ys b hb with rfl | hb'
        · rename_i hnle
          omega
        · exact hl.1 b hb'
      · exact ih hl.2

theorem sorted_sortByCitationsDesc (l : List TopPaper) :
    List.Sorted (fun a b => b.citations ≤ a.citations) (sortByCitationsDesc l) := by
  induction l with
  | nil => simp [sortByCitationsDesc]
  | cons x xs ih => exact sorted_insertByCitationsDesc x _ ih

theorem filter_insertByCitationsDesc_of_ne (x : TopPaper) (l : List TopPaper)
    (c : Nat) (hx : ¬ x.citations = c) :
    (insertByCitationsDesc x l).filter (fun t => t.citations = c) =
      l.filter (fun t => t.citations = c) := by
  induction l with
  | nil => simp [insertByCitationsDesc, hx]
  | cons y ys ih =>
    unfold insertByCitationsDesc
    split
    · simp [List.filter_cons, hx]
    · by_cases hy : y.citations = c
      · simp [List.filter_cons, hy, ih]
      · simp [List.filter_cons, hy, ih]

theorem filter_insertByCitationsDesc_of_eq (x : TopPaper) (l : List TopPaper)
    (c : Nat) (hx : x.citations = c) :
    (insertByCitationsDesc x l).filter (fun t => t.citations = c) =
      x :: l.filter (fun t => t.citations = c) := by
  induction l with
  | nil => simp [insertByCitationsDesc, hx]
  | cons y ys ih =>
    unfold insertByCitationsDesc
    split
    · simp [List.filter_cons, hx]
    · rename_i hnle
      have hy : ¬ y.citations = c := by omega
      simp only [List.filter_cons]
      rw [if_neg (by simp [hy]), if_neg (by simp [hy]), ih]

theorem filter_sortByCitationsDesc (l : List TopPaper) (c : Nat) :
    (sortByCitationsDesc l).filter (fun t => t.citations = c) =
      l.filter (fun t => t.citations = c) := by
  induction l with
  | nil => rfl
  | cons x xs ih =>
    show (insertByCitationsDesc x (sortByCitationsDesc xs)).filter _ = _
    by_cases hx : x.citations = c
    · rw [filter_insertByCitationsDesc_of_eq x _ c hx, ih]
      simp [List.filter_cons, hx]
    · rw [filter_insertByCitationsDesc_of_ne x _ c hx, ih]
      simp [List.filter_cons, hx]

theorem nxDensity_formula (g : DiGraph) :
    nxDensity g = (g.edges.length : ℚ) /
      ((g.keys.length : ℚ) * ((g.keys.length : ℚ) - 1)) := by
  unfold nxDensity
  split
  · rename_i hcase
    rcases hcase with hn | hm
    · have : g.keys.length = 0 ∨ g.keys.length = 1 := by omega
      rcases this with h0 | h1
      · rw [h0]
        norm_num
      · rw [h1]
        norm_num
    · rw [hm]
      norm_num
  · rfl

/-- C8: for every non-empty graph, `get_graph_statistics` reports density
`edges / (nodes·(nodes−1))` (with the `0/0` convention at a single node),
average degree equal to the mean over all nodes of in-degree plus out-degree
(each node's total degree *is* its in-degree plus its out-degree), and a
`top_papers` list that is the 10-element prefix of a permutation of the node
summaries that is sorted by descending citation count and, on every citation
value, preserves the original node insertion order (stable ties). -/
theorem C8_statistics_contract (s : EngineState) (h : ¬ s.graph.nodes = []) :
    ∃ st, get_graph_statistics s = some st ∧
      st.density = (s.graph.edges.length : ℚ) /
        ((s.graph.keys.length : ℚ) * ((s.graph.keys.length : ℚ) - 1)) ∧
      (∀ k, s.graph.degree k = s.graph.inDegree k + s.graph.outDegree k) ∧
      st.average_degree =
        ((s.graph.keys.map (fun k => s.graph.inDegree k + s.graph.outDegree k)).sum : ℚ) /
          (s.graph.keys.length : ℚ) ∧
      ∃ sorted, List.Sorted (fun a b => b.citations ≤ a.citations) sorted ∧
        (∀ c, sorted.filter (fun t => t.citations = c) =
          (s.graph.nodes.map nodeSummary).filter (fun t => t.citations = c)) ∧
        st.top_papers = sorted.take 10 := by
  have hsome : get_graph_statistics s = some
      { total_papers := s.graph.keys.length
        total_citations := s.graph.edges.length
        density := nxDensity s.graph
        average_degree :=
          ((s.graph.keys.map (fun k => s.graph.degree k)).sum : ℚ) /
            (s.graph.keys.length : ℚ)
        max_degree := (s.graph.keys.map (fun k => s.graph.degree k)).foldr max 0
        top_papers := (sortByCitationsDesc (s.graph.nodes.map nodeSummary)).take 10 } := by
    unfold get_graph_statistics
    rw [if_neg h]
  refine ⟨_, hsome, ?_, fun k => rfl, ?_, ?_⟩
  · exact nxDensity_formula s.graph
  · rfl
  · exact ⟨sortByCitationsDesc (s.graph.nodes.map nodeSummary),
      sorted_sortByCitationsDesc _,
      fun c => filter_sortByCitationsDesc _ c, rfl⟩

/-- C8 (witness): the statistics contract applied to the concrete graph
`{A→B, B→C}`. -/
theorem C8_witness_statistics :
    ¬ stateABC.graph.nodes = [] ∧
    (∃ st, get_graph_statistics stateABC = some st ∧
      st.density = (stateABC.graph.edges.length : ℚ) /
        ((stateABC.graph.keys.length : ℚ) * ((stateABC.graph.keys.length : ℚ) - 1)) ∧
      (∀ k, stateABC.graph.degree k =
        stateABC.graph.inDegree k + stateABC.graph.outDegree k) ∧
      st.average_degree =
        ((stateABC.graph.keys.map
          (fun k => stateABC.graph.inDegree k + stateABC.graph.outDegree k)).sum : ℚ) /
          (stateABC.graph.keys.length : ℚ) ∧
      ∃ sorted, List.Sorted (fun a b => b.citations ≤ a.citations) sorted ∧
        (∀ c, sorted.filter (fun t => t.citations = c) =
          (stateABC.graph.nodes.map nodeSummary).filter (fun t => t.citations = c)) ∧
        st.top_papers = sorted.take 10) :=
  ⟨by decide, C8_statistics_contract stateABC (by decide)⟩

/-! ## C7 — removeNode with orphan cleanup -/

theorem degree_congr_edges {g g' : DiGraph} (h : g.edges = g'.edges) (k : Str) :
    g.degree k = g'.degree k := by
  unfold DiGraph.degree DiGraph.inDegree DiGraph.outDegree
  rw [h]

theorem edges_unchanged_of_degree_zero (g : DiGraph) (k : Str)
    (h : g.degree k = 0) :
    ((g.removeOutEdges k).removeNode k).edges = g.edges := by
  unfold DiGraph.degree DiGraph.inDegree DiGraph.outDegree at h
  have hout : ∀ e ∈ g.edges, ¬ (e : Str × Str).1 = k := by
    have h0 : (g.edges.filter (fun e => e.1 = k)).length = 0 := by omega
    rw [List.length_eq_zero] at h0
    intro e he hk
    have hmem : e ∈ g.edges.filter (fun e => e.1 = k) :=
      List.mem_filter.mpr ⟨he, by simp [hk]⟩
    rw [h0] at hmem
    cases hmem
  have hin : ∀ e ∈ g.edges, ¬ (e : Str × Str).2 = k := by
    have h0 : (g.edges.filter (fun e => e.2 = k)).length = 0 := by omega
    rw [List.length_eq_zero] at h0
    intro e he hk
    have hmem : e ∈ g.edges.filter (fun e => e.2 = k) :=
      List.mem_filter.mpr ⟨he, by simp [hk]⟩
    rw [h0] at hmem
    cases hmem
  show ((g.edges.filter (fun e => ¬ e.1 = k)).filter
    (fun e => ¬ e.1 = k ∧ ¬ e.2 = k)) = g.edges
  rw [List.filter_eq_self.mpr (fun e he => by
      simp [hout e (List.mem_filter.mp he).1, hin e (List.mem_filter.mp he).1]),
    List.filter_eq_self.mpr (fun e he => by simp [hout e he])]

theorem remove_paper_eval (s : EngineState) (pid : Str)
    (hv : (validate_paper_id pid).1 = true)
    (hin : s.graph.hasNode (validate_paper_id pid).2 = true) :
    remove_paper_from_graph s pid =
      ({ s with
          graph := (s.graph.removeOutEdges (validate_paper_id pid).2).removeNode
            (validate_paper_id pid).2,
          added_papers :=
            s.added_papers.filter
              (fun y => ¬ y = (validate_paper_id pid).2) }, true) := by
  unfold remove_paper_from_graph
  rw [if_neg (by simp [hv]), if_neg (by simp [hin])]

theorem orphanSweepAux (snapshot : List Str) :
    ∀ (front rnodes : List (Str × Option Paper)) (s : EngineState)
      (acc0 : List Str),
      s.graph.nodes = front ++ rnodes →
      snapshot = rnodes.map Prod.fst →
      ((front ++ rnodes).map Prod.fst).Nodup →
      (∀ k ∈ snapshot, IsCanonical k) →
      (snapshot.foldl
        (fun (acc : EngineState × List Str) k =>
          if acc.1.graph.degree k = 0 then
            ((remove_paper_from_graph acc.1 k).1, acc.2 ++ [k])
          else acc) (s, acc0)).1.graph.nodes =
        front ++ rnodes.filter (fun e => ¬ s.graph.degree e.1 = 0) ∧
      (snapshot.foldl
        (fun (acc : EngineState × List Str) k =>
          if acc.1.graph.degree k = 0 then
            ((remove_paper_from_graph acc.1 k).1, acc.2 ++ [k])
          else acc) (s, acc0)).1.graph.edges = s.graph.edges := by
  induction snapshot with
  | nil =>
    intro front rnodes s acc0 h1 h2 _ _
    have hrn : rnodes = [] := List.map_eq_nil_iff.mp h2.symm
    subst hrn
    constructor
    · simp only [List.foldl_nil, List.filter_nil]
      simpa using h1
    · rfl
  | cons k ktail ih =>
    intro front rnodes s acc0 h1 h2 h3 h4
    rcases rnodes with _ | ⟨rn, rtail⟩
    · simp at h2
    · rw [List.map_cons] at h2
      injection h2 with hk hktail
      have hcank : IsCanonical k := h4 k (List.mem_cons_self _ _)
      have hvk : (validate_paper_id k).1 = true := by
        rw [hcank]
      have hnidk : (validate_paper_id k).2 = k := by
        rw [hcank]
      have h3app := h3
      rw [List.map_append, List.nodup_append, List.map_cons] at h3app
      have hfrontne : ∀ e ∈ front, ¬ (e : Str × Option Paper).1 = k := by
        intro e he heq
        exact h3app.2.2 (List.mem_map_of_mem Prod.fst he)
          (by rw [← heq] at hk; rw [hk]; exact List.mem_cons_self _ _)
      have hrtailne : ∀ e ∈ rtail, ¬ (e : Str × Option Paper).1 = k := by
        intro e he heq
        have hnodup2 := h3app.2.1
        rw [List.nodup_cons] at hnodup2
        apply hnodup2.1
        rw [← hk, ← heq]
        exact List.mem_map_of_mem Prod.fst he
      simp only [List.foldl_cons]
      by_cases hdeg : s.graph.degree k = 0
      · rw [if_pos hdeg]
        have hinG : s.graph.hasNode (validate_paper_id k).2 = true := by
          rw [hnidk]
          rw [hasNode_iff_mem_keys]
          show k ∈ s.graph.nodes.map Prod.fst
          rw [h1, hk]
          exact List.mem_map_of_mem Prod.fst
            (List.mem_append.mpr (Or.inr (List.mem_cons_self _ _)))
        have hstep : (remove_paper_from_graph s k).1 =
            ({ s with
              graph := (s.graph.removeOutEdges (validate_paper_id k).2).removeNode
                (validate_paper_id k).2,
              added_papers := s.added_papers.filter
                (fun y => ¬ y = (validate_paper_id k).2) } : EngineState) := by
          rw [remove_paper_eval s k hvk hinG]
        rw [hstep]
        have hedges1 : ((s.graph.removeOutEdges (validate_paper_id k).2).removeNode
            (validate_paper_id k).2).edges = s.graph.edges := by
          rw [hnidk]
          exact edges_unchanged_of_degree_zero s.graph k hdeg
        have hnodes1 : ((s.graph.removeOutEdges (validate_paper_id k).2).removeNode
            (validate_paper_id k).2).nodes = front ++ rtail := by
          rw [hnidk]
          show (s.graph.nodes.filter (fun e => ¬ e.1 = k)) = front ++ rtail
          rw [h1, List.filter_append]
          rw [List.filter_eq_self.mpr (fun e he => by simp [hfrontne e he])]
          rw [List.filter_cons, if_neg (by simp [hk])]
          rw [List.filter_eq_self.mpr (fun e he => by simp [hrtailne e he])]
        have hnodup1 : ((front ++ rtail).map Prod.fst).Nodup := by
          have hsub : List.Sublist (front ++ rtail) (front ++ rn :: rtail) :=
            List.Sublist.append_left (List.sublist_cons_self rn rtail) front
          exact List.Nodup.sublist (hsub.map Prod.fst) h3
        have ihres := ih front rtail
          ({ s with
            graph := (s.graph.removeOutEdges (validate_paper_id k).2).removeNode
              (validate_paper_id k).2,
            added_papers := s.added_papers.filter
              (fun y => ¬ y = (validate_paper_id k).2) })
          (acc0 ++ [k]) hnodes1 hktail hnodup1
          (fun k' hk' => h4 k' (List.mem_cons_of_mem _ hk'))
        have hdegeq : ∀ x, (({ s with
            graph := (s.graph.removeOutEdges (validate_paper_id k).2).removeNode
              (validate_paper_id k).2,
            added_papers := s.added_papers.filter
              (fun y => ¬ y = (validate_paper_id k).2) } : EngineState)).graph.degree x =
            s.graph.degree x := by
          intro x
          exact degree_congr_edges hedges1 x
        constructor
        · rw [ihres.1]
          rw [List.filter_congr (fun e _ => by rw [hdegeq e.1])]
          rw [List.filter_cons, if_neg (by simp [← hk, hdeg])]
        · rw [ihres.2]
          exact hedges1
      · rw [if_neg hdeg]
        have h1' : s.graph.nodes = (front ++ [rn]) ++ rtail := by
          rw [h1, List.append_assoc, List.singleton_append]
        have h3' : (((front ++ [rn]) ++ rtail).map Prod.fst).Nodup := by
          rw [List.append_assoc, List.singleton_append]
          exact h3
        have ihres := ih (front ++ [rn]) rtail s acc0 h1' hktail h3'
          (fun k' hk' => h4 k' (List.mem_cons_of_mem _ hk'))
        constructor
        · rw [ihres.1]
          rw [List.filter_cons, if_pos (by simp [← hk, hdeg])]
          rw [List.append_assoc, List.singleton_append]
        · exact ihres.2

theorem orphanSweep_spec (s : EngineState)
    (hnodup : s.graph.keys.Nodup) (hcanon : ∀ k ∈ s.graph.keys, IsCanonical k) :
    (orphanSweep s.graph.keys s).1.graph.nodes =
      s.graph.nodes.filter (fun e => ¬ s.graph.degree e.1 = 0) ∧
    (orphanSweep s.graph.keys s).1.graph.edges = s.graph.edges := by
  have h := orphanSweepAux s.graph.keys [] s.graph.nodes s [] rfl rfl hnodup hcanon
  exact h

/-- C7 (counterexample): a reachable engine state (a bare-DOI root expanded
once) holds a degree-0 node under the DOI-form key after
`remove_node_with_connections(keyGarbage, remove_orphaned := true)`: the
sweep reports the DOI node as orphaned but fails to remove it (its key
re-normalizes to a different, absent key), so not every degree-0 node is
removed. -/
theorem C7_counterexample_doi_orphan_survives :
    (remove_node_with_connections stateC7 keyGarbage true).1.graph.keys =
      [keyDoi] ∧
    (remove_node_with_connections stateC7 keyGarbage true).1.graph.degree keyDoi = 0 ∧
    keyDoi ∈ (remove_node_with_connections stateC7 keyGarbage true).2.orphaned_nodes_removed := by
  decide

/-- C7 (amended): when every node key is canonical (normalization-fixed),
`remove_node_with_connections` with `remove_orphaned` removes the target
node and all edges touching it, and the single sweep then removes exactly
the nodes whose total degree is zero in the post-removal graph: the final
node list is the post-removal list filtered to positive-degree nodes, and
the edges are exactly the post-removal edges.  (With a non-canonical,
e.g. DOI-form, key a degree-0 node survives the sweep, as the
counterexample shows.) -/
theorem C7_remove_orphans_sweep (s : EngineState) (pid : Str)
    (hcanon : ∀ k ∈ s.graph.keys, IsCanonical k)
    (hnodup : s.graph.keys.Nodup)
    (hv : (validate_paper_id pid).1 = true)
    (hin : s.graph.hasNode (validate_paper_id pid).2 = true) :
    (remove_node_with_connections s pid true).1.graph.nodes =
      ((s.graph.removeOutEdges (validate_paper_id pid).2).removeNode
        (validate_paper_id pid).2).nodes.filter
        (fun e => ¬ ((s.graph.removeOutEdges (validate_paper_id pid).2).removeNode
          (validate_paper_id pid).2).degree e.1 = 0) ∧
    (remove_node_with_connections s pid true).1.graph.edges =
      ((s.graph.removeOutEdges (validate_paper_id pid).2).removeNode
        (validate_paper_id pid).2).edges := by
  have hrem := remove_paper_eval s pid hv hin
  have heval : remove_node_with_connections s pid true =
      ((orphanSweep ({ s with
          graph := (s.graph.removeOutEdges (validate_paper_id pid).2).removeNode
            (validate_paper_id pid).2,
          added_papers := s.added_papers.filter
            (fun y => ¬ y = (validate_paper_id pid).2) } : EngineState).graph.keys
        ({ s with
          graph := (s.graph.removeOutEdges (validate_paper_id pid).2).removeNode
            (validate_paper_id pid).2,
          added_papers := s.added_papers.filter
            (fun y => ¬ y = (validate_paper_id pid).2) } : EngineState)).1,
       ⟨true, some (validate_paper_id pid).2,
        (orphanSweep ({ s with
          graph := (s.graph.removeOutEdges (validate_paper_id pid).2).removeNode
            (validate_paper_id pid).2,
          added_papers := s.added_papers.filter
            (fun y => ¬ y = (validate_paper_id pid).2) } : EngineState).graph.keys
        ({ s with
          graph := (s.graph.removeOutEdges (validate_paper_id pid).2).removeNode
            (validate_paper_id pid).2,
          added_papers := s.added_papers.filter
            (fun y => ¬ y = (validate_paper_id pid).2) } : EngineState)).2⟩) := by
    unfold remove_node_with_connections
    rw [if_neg (by simp [hv]), if_neg (by simp [hin]), hrem]
    rw [if_neg (by simp)]
    rfl
  have hsubkeys : ∀ k ∈ ({ s with
      graph := (s.graph.removeOutEdges (validate_paper_id pid).2).removeNode
        (validate_paper_id pid).2,
      added_papers := s.added_papers.filter
        (fun y => ¬ y = (validate_paper_id pid).2) } : EngineState).graph.keys,
      k ∈ s.graph.keys := by
    intro k hk
    have hk' : k ∈ (s.graph.nodes.filter
        (fun e => ¬ e.1 = (validate_paper_id pid).2)).map Prod.fst := hk
    rcases List.mem_map.mp hk' with ⟨e, he, rfl⟩
    exact List.mem_map_of_mem Prod.fst (List.mem_filter.mp he).1
  have hnodup1 : ({ s with
      graph := (s.graph.removeOutEdges (validate_paper_id pid).2).removeNode
        (validate_paper_id pid).2,
      added_papers := s.added_papers.filter
        (fun y => ¬ y = (validate_paper_id pid).2) } : EngineState).graph.keys.Nodup := by
    show ((s.graph.nodes.filter
      (fun e => ¬ e.1 = (validate_paper_id pid).2)).map Prod.fst).Nodup
    exact List.Nodup.sublist ((List.filter_sublist _).map Prod.fst) hnodup
  have hcanon1 : ∀ k ∈ ({ s with
      graph := (s.graph.removeOutEdges (validate_paper_id pid).2).removeNode
        (validate_paper_id pid).2,
      added_papers := s.added_papers.filter
        (fun y => ¬ y = (validate_paper_id pid).2) } : EngineState).graph.keys,
      IsCanonical k := fun k hk => hcanon k (hsubkeys k hk)
  have hsweep := orphanSweep_spec _ hnodup1 hcanon1
  rw [heval]
  exact ⟨hsweep.1, hsweep.2⟩

/-- C7 (witness): the amended sweep theorem applied to the graph
`{A→B, B→C}` with `removeNode(B, removeOrphaned=true)` — the resulting
graph is empty (both `A` and `C` reach degree 0 and are caught by the same
sweep). -/
theorem C7_witness_chain_becomes_empty :
    (remove_node_with_connections stateABC keyB true).1.graph.nodes = [] ∧
    (remove_node_with_connections stateABC keyB true).1.graph.edges = [] := by
  have h := C7_remove_orphans_sweep stateABC keyB (by decide) (by decide)
    (by decide) (by decide)
  constructor
  · rw [h.1]
    decide
  · rw [h.2]
    decide

/-! ## C2 — multiple roots are *not* expanded against a shared graph -/

/-- C2 (code bug): `build_graph_from_multiple_roots` delegates each root to
`build_graph_from_root`, which resets the whole engine state; with two
resolvable isolated roots `W1, W2` the final snapshot contains only `W2`,
although expanding `W1` alone admits it — papers discovered from the earlier
root are discarded, contradicting the documented shared-graph sequential
semantics. -/
theorem C2_multiple_roots_discard_earlier_root :
    (build_graph_from_multiple_roots adapterC2 initState
      [str "W1", str "W2"] 3 5 5).2 =
      BuildResult.ok ⟨[str "https://openalex.org/W2"], [], 1, 0⟩ ∧
    (build_graph_from_root adapterC2 initState (str "W1") 3 5 5).2 =
      BuildResult.ok ⟨[str "https://openalex.org/W1"], [], 1, 0⟩ := by
  decide

/-! ## C4 — dedup / self-loop invariants -/

theorem GInv_empty (added : List Str) : GInv added DiGraph.empty := by
  refine ⟨?_, ?_, ?_, ?_, ?_⟩ <;> simp [DiGraph.empty, DiGraph.keys]

theorem GInv_mono {added added' : List Str} {g : DiGraph} (h : GInv added g)
    (hsub : ∀ x ∈ added, x ∈ added') : GInv added' g :=
  ⟨h.nodup_keys, h.canonical_keys, fun k hk => hsub k (h.keys_added k hk),
   h.nodup_edges, h.no_self⟩

theorem GInv_addNodeData {added : List Str} {g : DiGraph} (h : GInv added g)
    (k : Str) (p : Paper) (hcan : IsCanonical k) (hk : k ∈ added) :
    GInv added (g.addNodeData k p) := by
  by_cases hmem : g.hasNode k = true
  · refine ⟨?_, ?_, ?_, ?_, ?_⟩
    · rw [addNodeData_keys, if_pos hmem]
      exact h.nodup_keys
    · rw [addNodeData_keys, if_pos hmem]
      exact h.canonical_keys
    · rw [addNodeData_keys, if_pos hmem]
      exact h.keys_added
    · rw [addNodeData_edges]
      exact h.nodup_edges
    · rw [addNodeData_edges]
      exact h.no_self
  · have hknot : k ∉ g.keys := fun hc => hmem ((hasNode_iff_mem_keys g k).mpr hc)
    refine ⟨?_, ?_, ?_, ?_, ?_⟩
    · rw [addNodeData_keys, if_neg hmem]
      rw [List.nodup_append]
      exact ⟨h.nodup_keys, List.nodup_singleton k,
        fun a ha hmem1 => hknot (by rwa [List.mem_singleton.mp hmem1] at ha)⟩
    · rw [addNodeData_keys, if_neg hmem]
      intro x hx
      rcases List.mem_append.mp hx with hx' | hx'
      · exact h.canonical_keys x hx'
      · rwa [List.mem_singleton.mp hx']
    · rw [addNodeData_keys, if_neg hmem]
      intro x hx
      rcases List.mem_append.mp hx with hx' | hx'
      · exact h.keys_added x hx'
      · rwa [List.mem_singleton.mp hx']
    · rw [addNodeData_edges]
      exact h.nodup_edges
    · rw [addNodeData_edges]
      exact h.no_self

theorem ensureNode_edges (g : DiGraph) (k : Str) :
    (g.ensureNode k).edges = g.edges := by
  unfold DiGraph.ensureNode
  split <;> rfl

theorem ensureNode_keys (g : DiGraph) (k : Str) :
    (g.ensureNode k).keys = if g.hasNode k then g.keys else g.keys ++ [k] := by
  unfold DiGraph.ensureNode
  split
  · rfl
  · show (g.nodes ++ [(k, none)]).map Prod.fst = g.keys ++ [k]
    simp [DiGraph.keys]

theorem GInv_ensureNode {added : List Str} {g : DiGraph} (h : GInv added g)
    (k : Str) (hcan : IsCanonical k) (hk : k ∈ added) :
    GInv added (g.ensureNode k) := by
  by_cases hmem : g.hasNode k = true
  · refine ⟨?_, ?_, ?_, ?_, ?_⟩ <;>
      rw [show g.ensureNode k = g from by unfold DiGraph.ensureNode; rw [if_pos hmem]]
    · exact h.nodup_keys
    · exact h.canonical_keys
    · exact h.keys_added
    · exact h.nodup_edges
    · exact h.no_self
  · have hknot : k ∉ g.keys := fun hc => hmem ((hasNode_iff_mem_keys g k).mpr hc)
    refine ⟨?_, ?_, ?_, ?_, ?_⟩
    · rw [ensureNode_keys, if_neg hmem]
      rw [List.nodup_append]
      exact ⟨h.nodup_keys, List.nodup_singleton k,
        fun a ha hmem1 => hknot (by rwa [List.mem_singleton.mp hmem1] at ha)⟩
    · rw [ensureNode_keys, if_neg hmem]
      intro x hx
      rcases List.mem_append.mp hx with hx' | hx'
      · exact h.canonical_keys x hx'
      · rwa [List.mem_singleton.mp hx']
    · rw [ensureNode_keys, if_neg hmem]
      intro x hx
      rcases List.mem_append.mp hx with hx' | hx'
      · exact h.keys_added x hx'
      · rwa [List.mem_singleton.mp hx']
    · rw [ensureNode_edges]
      exact h.nodup_edges
    · rw [ensureNode_edges]
      exact h.no_self

theorem hasEdge_iff_mem (g : DiGraph) (a b : Str) :
    g.hasEdge a b = true ↔ (a, b) ∈ g.edges := by
  unfold DiGraph.hasEdge
  simp [List.any_eq_true]

theorem GInv_addEdge {added : List Str} {g : DiGraph} (h : GInv added g)
    {a b : Str} (ha : a ∈ added) (hb : b ∈ added)
    (hca : IsCanonical a) (hcb : IsCanonical b) (hne : ¬ a = b) :
    GInv added (g.addEdge a b) := by
  have h2 : GInv added ((g.ensureNode a).ensureNode b) :=
    GInv_ensureNode (GInv_ensureNode h a hca ha) b hcb hb
  unfold DiGraph.addEdge
  split
  · exact h2
  · rename_i hnotedge
    refine ⟨h2.nodup_keys, h2.canonical_keys, h2.keys_added, ?_, ?_⟩
    · rw [List.nodup_append]
      refine ⟨h2.nodup_edges, List.nodup_singleton _, ?_⟩
      intro e he hmem1
      rw [List.mem_singleton.mp hmem1] at he
      exact hnotedge ((hasEdge_iff_mem _ a b).mpr he)
    · intro e he
      rcases List.mem_append.mp he with he' | he'
      · exact h2.no_self e he'
      · rw [List.mem_singleton.mp he']
        exact hne

theorem GInv_addEdgesFrom {added : List Str} {g : DiGraph} (h : GInv added g)
    (es : List (Str × Str)) (hes : ∀ e ∈ es, EdgeOk added e) :
    GInv added (g.addEdgesFrom es) := by
  induction es generalizing g with
  | nil => exact h
  | cons e rest ih =>
    show GInv added (List.foldl (fun g e => g.addEdge e.1 e.2) (g.addEdge e.1 e.2) rest)
    have he := hes e (List.mem_cons_self _ _)
    exact ih (GInv_addEdge h he.1 he.2.1 he.2.2.1 he.2.2.2.1 he.2.2.2.2)
      (fun e' h' => hes e' (List.mem_cons_of_mem _ h'))

theorem add_GInv (A : Adapter) (s : EngineState) (pid : Str) (r : Bool)
    (pd : Option Paper) (h : GraphInv s)
    (hcan : (validate_paper_id pid).1 = true → IsCanonical (validate_paper_id pid).2) :
    GraphInv (add_paper_to_graph A s pid r pd).1 ∧
    (∀ x ∈ s.added_papers, x ∈ (add_paper_to_graph A s pid r pd).1.added_papers) := by
  rcases hb : (add_paper_to_graph A s pid r pd).2 with _ | _
  · obtain ⟨hgr, had⟩ := add_fail_spec hb
    constructor
    · show GInv (add_paper_to_graph A s pid r pd).1.added_papers
        (add_paper_to_graph A s pid r pd).1.graph
      rw [hgr, had]
      exact h
    · intro x hx
      rw [had]
      exact hx
  · have hEq : add_paper_to_graph A s pid r pd =
        ((add_paper_to_graph A s pid r pd).1, true) := by
      rw [← hb]
    obtain ⟨hv, _, hmem, hmono, q, hgr⟩ := add_success_spec hEq
    constructor
    · show GInv (add_paper_to_graph A s pid r pd).1.added_papers
        (add_paper_to_graph A s pid r pd).1.graph
      rw [hgr]
      exact GInv_addNodeData (GInv_mono h hmono) _ q (hcan hv) hmem
    · exact hmono

theorem processCandidate_inv (A : Adapter) (nc : Str) (s0 : EngineState)
    (acc : EngineState × List (Str × Str) × List Str) (cand : Str)
    (hcand : IsCanonical cand)
    (hnc : nc ∈ s0.added_papers ∧ IsCanonical nc)
    (hacc : AccInv s0 acc) :
    AccInv s0 (processCandidate A nc acc cand) := by
  have hncand : (validate_paper_id cand).2 = cand := congrArg Prod.snd hcand
  unfold processCandidate
  split
  · exact hacc
  · split
    · exact hacc
    · rename_i hnotmem _
      split
      · rename_i hsucc
        have hEq : add_paper_to_graph A acc.1 cand false none =
            ((add_paper_to_graph A acc.1 cand false none).1, true) := by
          rw [← hsucc]
        obtain ⟨_, hnin, hmem, hmono, _, _⟩ := add_success_spec hEq
        obtain ⟨hGI, hmonoAdd⟩ := add_GInv A acc.1 cand false none hacc.1
          (fun _ => by rw [hncand]; exact hcand)
        have hncmem : nc ∈ (add_paper_to_graph A acc.1 cand false none).1.added_papers :=
          hmonoAdd nc (hacc.2.1 nc hnc.1)
        refine ⟨hGI, ?_, ?_, ?_⟩
        · intro x hx
          exact hmonoAdd x (hacc.2.1 x hx)
        · intro e he
          rcases List.mem_append.mp he with he' | he'
          · obtain ⟨h1, h2, h3, h4, h5⟩ := hacc.2.2.1 e he'
            exact ⟨hmonoAdd _ h1, hmonoAdd _ h2, h3, h4, h5⟩
          · rw [List.mem_singleton.mp he']
            refine ⟨hncmem, hmem, hnc.2, by rw [hncand]; exact hcand, ?_⟩
            rw [hncand]
            intro hceq
            exact hnotmem (hceq ▸ hacc.2.1 nc hnc.1)
        · intro x hx
          rcases List.mem_append.mp hx with hx' | hx'
          · obtain ⟨h1, h2⟩ := hacc.2.2.2 x hx'
            exact ⟨hmonoAdd x h1, h2⟩
          · rw [List.mem_singleton.mp hx']
            exact ⟨by rw [hncand] at hmem ⊢; exact hmem, by rw [hncand]; exact hcand⟩
      · rename_i hfail
        have hfail' : (add_paper_to_graph A acc.1 cand false none).2 = false := by
          cases hb : (add_paper_to_graph A acc.1 cand false none).2
          · rfl
          · exact absurd hb hfail
        obtain ⟨hgr, had⟩ := add_fail_spec hfail'
        refine ⟨?_, ?_, ?_, ?_⟩
        · show GInv (add_paper_to_graph A acc.1 cand false none).1.added_papers
            (add_paper_to_graph A acc.1 cand false none).1.graph
          rw [hgr, had]
          exact hacc.1
        · intro x hx
          rw [had]
          exact hacc.2.1 x hx
        · intro e he
          rw [had]
          exact hacc.2.2.1 e he
        · intro x hx
          rw [had]
          exact hacc.2.2.2 x hx

theorem foldCandidates_inv (A : Adapter) (nc : Str) (s0 : EngineState)
    (cands : List Str)
    (hcands : ∀ c ∈ cands, IsCanonical c)
    (hnc : nc ∈ s0.added_papers ∧ IsCanonical nc) :
    ∀ acc, AccInv s0 acc →
      AccInv s0 (cands.foldl (processCandidate A nc) acc) := by
  induction cands with
  | nil => exact fun acc hacc => hacc
  | cons c rest ih =>
    intro acc hacc
    rw [List.foldl_cons]
    exact ih (fun c' h' => hcands c' (List.mem_cons_of_mem _ h'))
      _ (processCandidate_inv A nc s0 acc c (hcands c (List.mem_cons_self _ _)) hnc hacc)

theorem processFrontierPaper_inv (A : Adapter) (cl rl : Nat)
    (cits refs : Str → List Str) (s0 : EngineState)
    (acc : EngineState × List (Str × Str) × List Str) (pid : Str)
    (hpid : pid ∈ s0.added_papers ∧ IsCanonical pid)
    (hcits : ∀ c ∈ cits pid, IsCanonical c)
    (hrefs : ∀ c ∈ refs pid, IsCanonical c)
    (hacc : AccInv s0 acc) :
    AccInv s0 (processFrontierPaper A cl rl cits refs acc pid) := by
  have hnpid : (validate_paper_id pid).2 = pid := congrArg Prod.snd hpid.2
  unfold processFrontierPaper
  split
  · exact hacc
  · rw [hnpid]
    exact foldCandidates_inv A pid s0 _
      (fun c hc => hrefs c (List.take_subset _ _ hc)) hpid _
      (foldCandidates_inv A pid s0 _
        (fun c hc => hcits c (List.take_subset _ _ hc)) hpid _ hacc)

theorem foldFrontier_inv (A : Adapter) (cl rl : Nat)
    (cits refs : Str → List Str) (s0 : EngineState) (current : List Str)
    (hcur : ∀ x ∈ current, x ∈ s0.added_papers ∧ IsCanonical x)
    (hcits : ∀ q c, c ∈ cits q → IsCanonical c)
    (hrefs : ∀ q c, c ∈ refs q → IsCanonical c) :
    ∀ acc, AccInv s0 acc →
      AccInv s0 (current.foldl (processFrontierPaper A cl rl cits refs) acc) := by
  induction current with
  | nil => exact fun acc hacc => hacc
  | cons x rest ih =>
    intro acc hacc
    rw [List.foldl_cons]
    exact ih (fun x' h' => hcur x' (List.mem_cons_of_mem _ h'))
      _ (processFrontierPaper_inv A cl rl cits refs s0 acc x
        (hcur x (List.mem_cons_self _ _)) (hcits x) (hrefs x) hacc)

theorem cacheBatchPapers_frame (papers : List Paper) :
    ∀ s : EngineState, (cacheBatchPapers s papers).graph = s.graph ∧
      (cacheBatchPapers s papers).added_papers = s.added_papers := by
  induction papers with
  | nil => exact fun s => ⟨rfl, rfl⟩
  | cons p rest ih =>
    intro s
    show (cacheBatchPapers
        (if (validate_paper_id p.id).1 = true then
          { s with paper_cache := setC (setC s.paper_cache (validate_paper_id p.id).2 p) p.id p }
        else s) rest).graph = s.graph ∧
      (cacheBatchPapers
        (if (validate_paper_id p.id).1 = true then
          { s with paper_cache := setC (setC s.paper_cache (validate_paper_id p.id).2 p) p.id p }
        else s) rest).added_papers = s.added_papers
    split
    · exact ih _
    · exact ih _

theorem roundPrimed_frame (A : Adapter) (cl rl : Nat) (s : EngineState)
    (current : List Str) :
    (roundPrimed A cl rl s current).graph = s.graph ∧
    (roundPrimed A cl rl s current).added_papers = s.added_papers := by
  unfold roundPrimed
  split
  · exact ⟨rfl, rfl⟩
  · exact cacheBatchPapers_frame _ s

theorem roundCits_canonical (A : Adapter) (hA : GoodAdapter A)
    (current : List Str) (cl rl : Nat) :
    ∀ q c, c ∈ roundCits A current cl rl q → IsCanonical c := by
  intro q c hc
  unfold roundCits get_citations_and_references_batch at hc
  split at hc
  · exact hA.citations_canonical q c (List.take_subset _ _ hc)
  · cases hc

theorem roundRefs_canonical (A : Adapter) (hA : GoodAdapter A)
    (current : List Str) (cl rl : Nat) :
    ∀ q c, c ∈ roundRefs A current cl rl q → IsCanonical c := by
  intro q c hc
  unfold roundRefs get_citations_and_references_batch at hc
  split at hc
  · exact hA.references_canonical q c (List.take_subset _ _ hc)
  · cases hc

theorem buildRound_inv (A : Adapter) (hA : GoodAdapter A) (cl rl : Nat)
    (s : EngineState) (current : List Str)
    (hs : GraphInv s)
    (hcur : ∀ x ∈ current, x ∈ s.added_papers ∧ IsCanonical x) :
    GraphInv (buildRound A cl rl s current).1 ∧
    (∀ x ∈ s.added_papers, x ∈ (buildRound A cl rl s current).1.added_papers) ∧
    (∀ x ∈ (buildRound A cl rl s current).2,
      x ∈ (buildRound A cl rl s current).1.added_papers ∧ IsCanonical x) := by
  obtain ⟨hg1, ha1⟩ := roundPrimed_frame A cl rl s current
  have hs1 : GraphInv (roundPrimed A cl rl s current) := by
    show GInv (roundPrimed A cl rl s current).added_papers
      (roundPrimed A cl rl s current).graph
    rw [hg1, ha1]
    exact hs
  have hcur1 : ∀ x ∈ current,
      x ∈ (roundPrimed A cl rl s current).added_papers ∧ IsCanonical x :=
    fun x hx => ⟨by rw [ha1]; exact (hcur x hx).1, (hcur x hx).2⟩
  have hacc0 : AccInv (roundPrimed A cl rl s current)
      ((roundPrimed A cl rl s current), [], []) :=
    ⟨hs1, fun x hx => hx, by simp, by simp⟩
  have hfold : AccInv (roundPrimed A cl rl s current) (roundFold A cl rl s current) :=
    foldFrontier_inv A cl rl (roundCits A current cl rl) (roundRefs A current cl rl)
      (roundPrimed A cl rl s current) current hcur1
      (roundCits_canonical A hA current cl rl)
      (roundRefs_canonical A hA current cl rl) _ hacc0
  refine ⟨?_, ?_, ?_⟩
  · show GInv (roundFold A cl rl s current).1.added_papers
      ((roundFold A cl rl s current).1.graph.addEdgesFrom
        (roundFold A cl rl s current).2.1)
    exact GInv_addEdgesFrom hfold.1 _ hfold.2.2.1
  · intro x hx
    show x ∈ (roundFold A cl rl s current).1.added_papers
    exact hfold.2.1 x (by rw [ha1]; exact hx)
  · intro x hx
    exact hfold.2.2.2 x hx

theorem buildLoop_inv (A : Adapter) (hA : GoodAdapter A) (cl rl : Nat) :
    ∀ (n : Nat) (s : EngineState) (current : List Str),
      GraphInv s →
      (∀ x ∈ current, x ∈ s.added_papers ∧ IsCanonical x) →
      GraphInv (buildLoop A cl rl s current n) := by
  intro n
  induction n with
  | zero => exact fun s current hs _ => hs
  | succ m ih =>
    intro s current hs hcur
    obtain ⟨h1, _, h3⟩ := buildRound_inv A hA cl rl s current hs hcur
    unfold buildLoop
    split
    · exact h1
    · exact ih _ _ h1 h3

theorem build_root_inv (A : Adapter) (hA : GoodAdapter A) (s : EngineState)
    (root : Str) (it cl rl : Nat)
    (hroot : (validate_paper_id root).1 = true → IsCanonical (validate_paper_id root).2) :
    GraphInv (build_graph_from_root A s root it cl rl).1 := by
  have hinit : GraphInv initState := GInv_empty []
  obtain ⟨hadd, _⟩ := add_GInv A initState root true none hinit hroot
  unfold build_graph_from_root
  split
  · exact hadd
  · split
    · exact hadd
    · rename_i hsucc hval
      have hsucc' : (add_paper_to_graph A initState root true none).2 = true := by
        cases hb : (add_paper_to_graph A initState root true none).2
        · exact absurd (by simp [hb]) hsucc
        · rfl
      have hval' : (validate_paper_id root).1 = true := by
        cases hb : (validate_paper_id root).1
        · exact absurd (by simp [hb]) hval
        · rfl
      have hEq : add_paper_to_graph A initState root true none =
          ((add_paper_to_graph A initState root true none).1, true) :=
        Prod.ext rfl hsucc'
      obtain ⟨_, _, hmem, _, _, _⟩ := add_success_spec hEq
      exact buildLoop_inv A hA cl rl it _ _ hadd
        (fun x hx => by
          rw [List.mem_singleton.mp hx]
          exact ⟨hmem, hroot hval'⟩)

theorem expandCandidate_inv (A : Adapter) (node_id : Str) (isCiting : Bool)
    (s0 : EngineState) (acc : EngineState × List Str) (p : Paper)
    (hp : IsCanonical p.id)
    (hnode : node_id ∈ s0.added_papers ∧ IsCanonical node_id)
    (hacc : ExpAccInv s0 acc) :
    ExpAccInv s0 (expandCandidate A node_id isCiting acc p) := by
  have hnp : (validate_paper_id p.id).2 = p.id := congrArg Prod.snd hp
  unfold expandCandidate
  split
  · rename_i hsucc
    have hEq : add_paper_to_graph A acc.1 p.id false none =
        ((add_paper_to_graph A acc.1 p.id false none).1, true) := by
      rw [← hsucc]
    obtain ⟨_, hnin, hmem, _, _, _⟩ := add_success_spec hEq
    obtain ⟨hGI, hmonoAdd⟩ := add_GInv A acc.1 p.id false none hacc.1
      (fun _ => by rw [hnp]; exact hp)
    rw [hnp] at hmem hnin
    have hnode_mem : node_id ∈ (add_paper_to_graph A acc.1 p.id false none).1.added_papers :=
      hmonoAdd node_id (hacc.2.1 node_id hnode.1)
    have hne : ¬ p.id = node_id := by
      intro he
      exact hnin (he ▸ hacc.2.1 node_id hnode.1)
    refine ⟨?_, ?_, ?_⟩
    · show GInv (add_paper_to_graph A acc.1 p.id false none).1.added_papers
        (if isCiting = true then
          (add_paper_to_graph A acc.1 p.id false none).1.graph.addEdge p.id node_id
        else
          (add_paper_to_graph A acc.1 p.id false none).1.graph.addEdge node_id p.id)
      split
      · exact GInv_addEdge hGI hmem hnode_mem hp hnode.2 hne
      · exact GInv_addEdge hGI hnode_mem hmem hnode.2 hp (fun he => hne he.symm)
    · intro x hx
      exact hmonoAdd x (hacc.2.1 x hx)
    · intro x hx
      rcases List.mem_append.mp hx with hx' | hx'
      · obtain ⟨h1, h2⟩ := hacc.2.2 x hx'
        exact ⟨hmonoAdd x h1, h2⟩
      · rw [List.mem_singleton.mp hx']
        exact ⟨hmem, hp⟩
  · rename_i hfail
    have hfail' : (add_paper_to_graph A acc.1 p.id false none).2 = false := by
      cases hb : (add_paper_to_graph A acc.1 p.id false none).2
      · rfl
      · exact absurd hb hfail
    obtain ⟨hgr, had⟩ := add_fail_spec hfail'
    refine ⟨?_, ?_, ?_⟩
    · show GInv (add_paper_to_graph A acc.1 p.id false none).1.added_papers
        (add_paper_to_graph A acc.1 p.id false none).1.graph
      rw [hgr, had]
      exact hacc.1
    · intro x hx
      rw [had]
      exact hacc.2.1 x hx
    · intro x hx
      rw [had]
      exact hacc.2.2 x hx

theorem foldExpandCands_inv (A : Adapter) (node_id : Str) (isCiting : Bool)
    (s0 : EngineState) (papers : List Paper)
    (hps : ∀ p ∈ papers, IsCanonical p.id)
    (hnode : node_id ∈ s0.added_papers ∧ IsCanonical node_id) :
    ∀ acc, ExpAccInv s0 acc →
      ExpAccInv s0 (papers.foldl (expandCandidate A node_id isCiting) acc) := by
  induction papers with
  | nil => exact fun acc hacc => hacc
  | cons p rest ih =>
    intro acc hacc
    rw [List.foldl_cons]
    exact ih (fun p' h' => hps p' (List.mem_cons_of_mem _ h')) _
      (expandCandidate_inv A node_id isCiting s0 acc p
        (hps p (List.mem_cons_self _ _)) hnode hacc)

theorem expandFrontierNode_inv (A : Adapter) (hA : GoodAdapter A) (cl rl : Nat)
    (s0 : EngineState) (acc : EngineState × List Str) (node_id : Str)
    (hnode : node_id ∈ s0.added_papers ∧ IsCanonical node_id)
    (hacc : ExpAccInv s0 acc) :
    ExpAccInv s0 (expandFrontierNode A cl rl acc node_id) := by
  unfold expandFrontierNode
  exact foldExpandCands_inv A node_id false s0 _
    (fun p hp => hA.ref_papers_canonical node_id rl p hp) hnode _
    (foldExpandCands_inv A node_id true s0 _
      (fun p hp => hA.cited_papers_canonical node_id cl p hp) hnode _ hacc)

theorem foldExpandFrontier_inv (A : Adapter) (hA : GoodAdapter A) (cl rl : Nat)
    (s0 : EngineState) (current : List Str)
    (hcur : ∀ x ∈ current, x ∈ s0.added_papers ∧ IsCanonical x) :
    ∀ acc, ExpAccInv s0 acc →
      ExpAccInv s0 (current.foldl (expandFrontierNode A cl rl) acc) := by
  induction current with
  | nil => exact fun acc hacc => hacc
  | cons x rest ih =>
    intro acc hacc
    rw [List.foldl_cons]
    exact ih (fun x' h' => hcur x' (List.mem_cons_of_mem _ h')) _
      (expandFrontierNode_inv A hA cl rl s0 acc x
        (hcur x (List.mem_cons_self _ _)) hacc)

theorem expandLoop_inv (A : Adapter) (hA : GoodAdapter A) (cl rl : Nat) :
    ∀ (n : Nat) (s : EngineState) (current : List Str),
      GraphInv s →
      (∀ x ∈ current, x ∈ s.added_papers ∧ IsCanonical x) →
      GraphInv (expandLoop A cl rl s current n) := by
  intro n
  induction n with
  | zero => exact fun s current hs _ => hs
  | succ m ih =>
    intro s current hs hcur
    have hfold : ExpAccInv s (current.foldl (expandFrontierNode A cl rl) (s, [])) :=
      foldExpandFrontier_inv A hA cl rl s current hcur _
        ⟨hs, fun x hx => hx, by simp⟩
    unfold expandLoop
    split
    · exact hfold.1
    · exact ih _ _ hfold.1 (fun x hx => hfold.2.2 x hx)

theorem expand_from_node_inv (A : Adapter) (hA : GoodAdapter A)
    (s : EngineState) (pid : Str) (it cl rl : Nat) (hs : GraphInv s) :
    GraphInv (expand_from_node A s pid it cl rl).1 := by
  unfold expand_from_node
  split
  · exact hs
  · split
    · exact hs
    · rename_i _ hnode
      have hnode' : s.graph.hasNode (validate_paper_id pid).2 = true := by
        cases hb : s.graph.hasNode (validate_paper_id pid).2
        · exact absurd (by simp [hb]) hnode
        · rfl
      have hmemk : (validate_paper_id pid).2 ∈ s.graph.keys :=
        (hasNode_iff_mem_keys _ _).mp hnode'
      exact expandLoop_inv A hA cl rl it s _ hs
        (fun x hx => by
          rw [List.mem_singleton.mp hx]
          exact ⟨hs.keys_added _ hmemk, hs.canonical_keys _ hmemk⟩)

theorem runOp_inv (A : Adapter) (hA : GoodAdapter A) (s : EngineState)
    (op : EngineOp) (hs : GraphInv s) (hop : GoodOp op) :
    GraphInv (runOp A s op) := by
  cases op with
  | expand root it cl rl => exact build_root_inv A hA s root it cl rl hop
  | expandFromNode pid it cl rl => exact expand_from_node_inv A hA s pid it cl rl hs

theorem runOps_inv (A : Adapter) (hA : GoodAdapter A) (ops : List EngineOp)
    (hops : ∀ op ∈ ops, GoodOp op) :
    ∀ s, GraphInv s → GraphInv (runOps A s ops) := by
  induction ops with
  | nil => exact fun s hs => hs
  | cons op rest ih =>
    intro s hs
    show GraphInv (List.foldl (runOp A) (runOp A s op) rest)
    exact ih (fun o ho => hops o (List.mem_cons_of_mem _ ho)) _
      (runOp_inv A hA s op hs (hops op (List.mem_cons_self _ _)))

/-- C4 (counterexample): a single `expand` call on the bare-DOI root
`"10.1/x"` (a supported identifier form) produces two distinct graph nodes —
the DOI-form root key and the spurious re-normalized key created by
`add_edges_from` — that share the same canonical identifier, refuting the
claimed dedup invariant as stated. -/
theorem C4_counterexample_two_nodes_one_canonical_id :
    keyDoi ∈ (runOps adapterC4 initState
      [EngineOp.expand (str "10.1/x") 1 3 3]).graph.keys ∧
    keyGarbage ∈ (runOps adapterC4 initState
      [EngineOp.expand (str "10.1/x") 1 3 3]).graph.keys ∧
    ¬ keyDoi = keyGarbage ∧
    canonicalKey keyDoi = canonicalKey keyGarbage := by
  decide

/-- C4 (amended): after any sequence of `expand` / `expandFromNode` calls in
which every root identifier normalizes to a canonical fixed point (i.e. no
bare-DOI roots) and the adapter returns only canonical citation/reference
ids and record ids, the graph satisfies the dedup invariants: no two nodes
share a canonical identifier, no duplicate edges exist for an ordered pair,
and there are no self-loops. -/
theorem C4_dedup_invariants (A : Adapter) (ops : List EngineOp)
    (hA : GoodAdapter A) (hops : ∀ op ∈ ops, GoodOp op) :
    ((runOps A initState ops).graph.keys.map canonicalKey).Nodup ∧
    (runOps A initState ops).graph.edges.Nodup ∧
    (∀ e ∈ (runOps A initState ops).graph.edges, ¬ (e : Str × Str).1 = e.2) := by
  have h : GraphInv (runOps A initState ops) :=
    runOps_inv A hA ops hops initState (GInv_empty [])
  refine ⟨?_, h.nodup_edges, h.no_self⟩
  have hmap : (runOps A initState ops).graph.keys.map canonicalKey =
      (runOps A initState ops).graph.keys := by
    have h1 : (runOps A initState ops).graph.keys.map canonicalKey =
        (runOps A initState ops).graph.keys.map id :=
      List.map_congr_left (fun k hk => congrArg Prod.snd (h.canonical_keys k hk))
    rw [h1, List.map_id]
  rw [hmap]
  exact h.nodup_keys

/-- C4 (witness): the amended invariant theorem applied to a canonical-id
adapter and an `expand` followed by an `expandFromNode`. -/
theorem C4_witness_canonical_expansions :
    GoodAdapter adapterGood ∧
    (∀ op ∈ [EngineOp.expand (str "W1") 2 3 3,
             EngineOp.expandFromNode (str "https://openalex.org/W1") 1 3 3],
      GoodOp op) ∧
    (((runOps adapterGood initState
        [EngineOp.expand (str "W1") 2 3 3,
         EngineOp.expandFromNode (str "https://openalex.org/W1") 1 3 3]).graph.keys.map
      canonicalKey).Nodup ∧
     (runOps adapterGood initState
        [EngineOp.expand (str "W1") 2 3 3,
         EngineOp.expandFromNode (str "https://openalex.org/W1") 1 3 3]).graph.edges.Nodup ∧
     (∀ e ∈ (runOps adapterGood initState
        [EngineOp.expand (str "W1") 2 3 3,
         EngineOp.expandFromNode (str "https://openalex.org/W1") 1 3 3]).graph.edges,
       ¬ (e : Str × Str).1 = e.2)) := by
  have hA : GoodAdapter adapterGood := by
    refine ⟨?_, ?_, ?_, ?_⟩
    · intro q c hc
      have hc' : c ∈ (if q = str "https://openalex.org/W1" then
          [str "https://openalex.org/W2"] else []) := hc
      by_cases hq : q = str "https://openalex.org/W1"
      · rw [if_pos hq] at hc'
        rw [List.mem_singleton.mp hc']
        decide
      · rw [if_neg hq] at hc'
        cases hc'
    · intro q c hc
      have hc' : c ∈ ([] : List Str) := hc
      cases hc'
    · intro q n p hp
      have hp' : p ∈ (if q = str "https://openalex.org/W1" then [paperW2] else []) := hp
      by_cases hq : q = str "https://openalex.org/W1"
      · rw [if_pos hq] at hp'
        rw [List.mem_singleton.mp hp']
        decide
      · rw [if_neg hq] at hp'
        cases hp'
    · intro q n p hp
      have hp' : p ∈ ([] : List Paper) := hp
      cases hp'
  have hops : ∀ op ∈ [EngineOp.expand (str "W1") 2 3 3,
      EngineOp.expandFromNode (str "https://openalex.org/W1") 1 3 3], GoodOp op := by
    intro op hop
    rcases List.mem_cons.mp hop with rfl | hop'
    · exact fun _ => by decide
    · rcases List.mem_cons.mp hop' with rfl | hop''
      · trivial
      · cases hop''
  exact ⟨hA, hops, C4_dedup_invariants adapterGood _ hA hops⟩

end RefNet
